import Mathlib

/-!
Verification development for the JetBot motion-control core
(src/jetbot-backend/controls.py with constants from schemas.py).

Modelling conventions:
* Python floats are modelled as exact rationals (ℚ); all branch decisions in
  the source are order comparisons, which ℚ represents faithfully.
* The ultrasonic driver (jetbot/ultrasonic.py, external per the design) is a
  stream of readings indexed by the order in which the controller performs
  reads.  A reading is `none` when the driver raises an exception, and
  `some none` when it returns the Python value None (timeout / out of range),
  `some (some d)` when it returns a distance d in meters.
* Wall-clock timing is idealized: a safety check consumes zero wall time and
  time.sleep sleeps exactly its argument.  Under this idealization the
  wall-clock loops of controls.py are deterministic; the constant-speed loop
  is given fuel that strictly dominates its iteration count
  (at most ceil(duration / 0.05) + 1 iterations).
* math.radians(|angle|) is irrational, so executions of rotate/move_arc take
  the already-converted radian value as an explicit rational parameter
  (`angle_rad`); every formula downstream of the conversion is taken verbatim
  from the source.
* The two motor-value assignments that always appear as consecutive pairs in
  the source (left then right) are logged as one pair write.
-/

/-! ## Constants (src/jetbot-backend/schemas.py) -/

def MAX_MOTOR_VALUE : ℚ := 1
def MIN_MOTOR_VALUE : ℚ := 3/10
def STATIC_FRICTION_THRESHOLD : ℚ := 30/100
def ULTRASONIC_SAFETY_THRESHOLD_M : ℚ := 5/100
def MOTOR_SPEED_FACTOR : ℚ := 1827/10000
def LEFT_MOTOR_OFFSET : ℚ := 85/10000
def WHEELBASE_M : ℚ := 540/10000
/-- The constant named ACCEL_DECEL_RATIO in schemas.py (0.25). -/
def ACCEL_DECEL_FRACTION : ℚ := 25/100
def ACCEL_DECEL_STEPS : ℕ := 5
def MIN_ACCEL_DECEL_TIME : ℚ := 15/100
def OSHOOT_CORRECTION_START : ℚ := 3/100
def OSHOOT_CORRECTION_SLOPE : ℚ := 5/100000
def OSHOOT_CORRECTION_MAX : ℚ := 7/100
def IMAGE_WIDTH : ℚ := 1640

/-- check_interval in the constant-speed phases of move_distance / move_arc
(controls.py lines 405, 754): 0.05 s. -/
def check_interval : ℚ := 1/20

/-! ## Execution state and sensor environment -/

/-- Phase tag for logged sleeps. -/
inductive Phase where
  | accel
  | constant
  | decel
  | other
deriving DecidableEq

/-- One reading of the ultrasonic driver: `none` = the read raised an
exception, `some none` = Python None, `some (some d)` = distance d (m). -/
abbrev Reading := Option (Option ℚ)

/-- The sensor environment: the i-th read performed by the controller
returns `read i`. -/
structure Env where
  read : ℕ → Reading

/-- Controller-visible hardware/trace state threaded through an execution. -/
structure St where
  idx : ℕ
  motors : ℚ × ℚ
  writes : List (ℚ × ℚ)
  sleeps : List (Phase × ℚ)
  tripped : Bool

def St.init : St := ⟨0, (0, 0), [], [], false⟩

/-- A (left, right) motor write: the pair of consecutive single-motor
assignments of the source. -/
def writeM (l r : ℚ) (s : St) : St :=
  { s with motors := (l, r), writes := (l, r) :: s.writes }

/-- robot.stop(): both motors set to 0. -/
def robot_stop (s : St) : St := writeM 0 0 s

/-- Log a time.sleep of t seconds in phase p. -/
def sleepP (p : Phase) (t : ℚ) (s : St) : St :=
  { s with sleeps := (p, t) :: s.sleeps }

/-- Python's `1 if x >= 0 else -1`. -/
def pysign (x : ℚ) : ℚ := if 0 ≤ x then 1 else -1

/-- Direct self.ultrasonic.read_distance() call (outer none = the read
raised; the caller does not catch, so the exception propagates). -/
def read_distance (env : Env) (s : St) : Reading × St :=
  (env.read s.idx, { s with idx := s.idx + 1 })

/-- RobotController._check_ultrasonic_safety (controls.py 91-110).
Returns ((is_safe, distance), state).  On a reading strictly below the
threshold it calls robot.stop() and reports unsafe; a raised exception is
caught and treated as safe with distance None (fail-open). -/
def check_ultrasonic_safety (env : Env) (s : St) : (Bool × Option ℚ) × St :=
  match read_distance env s with
  | (none, s) => ((true, none), s)
  | (some none, s) => ((true, none), s)
  | (some (some d), s) =>
    if d < ULTRASONIC_SAFETY_THRESHOLD_M then
      ((false, some d), robot_stop { s with tripped := true })
    else
      ((true, some d), s)

/-! ## Movement results -/

inductive MStatus where
  | completed
  | safety
  | invalid_movement
deriving DecidableEq

structure MoveRes where
  status : MStatus
  final_ultrasonic : Option ℚ
deriving DecidableEq

/-- Read the ultrasonic once and return the given status with that reading
(the shape of every `return` in controls.py's movement functions).  If the
read raises, the exception propagates: result `none`. -/
def report (st : MStatus) (env : Env) (s : St) : Option MoveRes × St :=
  match read_distance env s with
  | (none, s) => (none, s)
  | (some d, s) => (some ⟨st, d⟩, s)

/-! ## Shared speed clamp -/

/-- `max(MIN_MOTOR_VALUE, min(abs(robot_speed), MAX_MOTOR_VALUE))`
(controls.py 297, 479, 578). -/
def clampSpeed (robot_speed : ℚ) : ℚ :=
  max MIN_MOTOR_VALUE (min |robot_speed| MAX_MOTOR_VALUE)

/-! ## Ramp generators (controls.py 112-261) -/

/-- Loop body of RobotController._smooth_start (lines 219-256), recursing
over the list of step indices `List.range ACCEL_DECEL_STEPS`.  Check time is
idealized to zero, so the remaining per-step sleep equals step_time. -/
def smooth_start_loop (env : Env) (step_time start_l start_r lba rab ld rd loff odir : ℚ)
    (check : Bool) : List ℕ → St → Bool × St
  | [], s => (true, s)
  | step :: rest, s =>
    let c := if check then check_ultrasonic_safety env s else ((true, none), s)
    if c.1.1 = false then (false, c.2)
    else
      let s := c.2
      let progress : ℚ := ((step : ℚ) + 1) / (ACCEL_DECEL_STEPS : ℚ)
      let left_val := (start_l + (lba - start_l) * progress) * ld
      let right_val := (start_r + (rab - start_r) * progress) * rd
      let lvrv :=
        if 0 < |loff| then
          let lv := left_val + loff * odir
          if 1 < lv then (1, max 0 (right_val - (lv - 1)) * rd)
          else if lv < -1 then (-1, min 0 (right_val + |lv + 1|) * rd)
          else (lv, right_val)
        else (left_val, right_val)
      let s := writeM lvrv.1 lvrv.2 s
      let s := if 0 < step_time then sleepP .accel step_time s else s
      smooth_start_loop env step_time start_l start_r lba rab ld rd loff odir check rest s

/-- RobotController._smooth_start (controls.py 177-261). -/
def smooth_start (env : Env) (left_motor_target right_motor_target acceleration_time left_offset : ℚ)
    (check : Bool) (s : St) : Bool × St :=
  if acceleration_time ≤ 0 then (true, writeM left_motor_target right_motor_target s)
  else
    let step_time := acceleration_time / (ACCEL_DECEL_STEPS : ℚ)
    let base_left := left_motor_target - left_offset
    let lba := |base_left|
    let rab := |right_motor_target|
    let ld := pysign base_left
    let rd := pysign right_motor_target
    let odir := if base_left ≠ 0 then ld else pysign left_offset
    let start_l := min STATIC_FRICTION_THRESHOLD lba
    let start_r := min STATIC_FRICTION_THRESHOLD rab
    let r := smooth_start_loop env step_time start_l start_r lba rab ld rd left_offset odir check
      (List.range ACCEL_DECEL_STEPS) s
    if r.1 = false then (false, r.2)
    else (true, writeM left_motor_target right_motor_target r.2)

/-- Loop body of RobotController._smooth_stop (lines 143-171). -/
def smooth_stop_loop (env : Env) (step_time la ra ld rd : ℚ) (check : Bool) :
    List ℕ → St → (Bool × Option ℚ) × St
  | [], s => ((true, none), robot_stop s)
  | step :: rest, s =>
    let c := if check then check_ultrasonic_safety env s else ((true, none), s)
    if c.1.1 = false then ((false, c.1.2), c.2)
    else
      let s := c.2
      let progress : ℚ := 1 - (step : ℚ) / (ACCEL_DECEL_STEPS : ℚ)
      let left_val := la * progress * ld
      let right_val := ra * progress * rd
      let left_val := if |left_val| < 5/100 then 0 else left_val
      let right_val := if |right_val| < 5/100 then 0 else right_val
      let s := writeM left_val right_val s
      let s := if 0 < step_time then sleepP .decel step_time s else s
      smooth_stop_loop env step_time la ra ld rd check rest s

/-- RobotController._smooth_stop (controls.py 112-175). -/
def smooth_stop (env : Env) (left_motor_start right_motor_start deceleration_time : ℚ)
    (check : Bool) (s : St) : (Bool × Option ℚ) × St :=
  if deceleration_time ≤ 0 then ((true, none), robot_stop s)
  else
    smooth_stop_loop env (deceleration_time / (ACCEL_DECEL_STEPS : ℚ))
      |left_motor_start| |right_motor_start| (pysign left_motor_start) (pysign right_motor_start)
      check (List.range ACCEL_DECEL_STEPS) s

/-! ## Constant-speed phase with periodic checks (controls.py 400-430, 749-780) -/

/-- Fuel bound for the constant-speed loop: with zero-cost checks the loop
runs at most ceil(cd / check_interval) + 1 iterations, so this fuel is never
exhausted. -/
def const_fuel (cd : ℚ) : ℕ := (⌈cd * 20⌉).toNat + 2

/-- The `while True` constant-speed loop for forward movement: check safety,
break once elapsed ≥ constant_duration, else sleep min(check_interval,
remaining).  Returns false iff a safety check tripped. -/
def const_loop (env : Env) (cd : ℚ) : ℕ → ℚ → St → Bool × St
  | 0, _, s => (true, s)
  | fuel + 1, elapsed, s =>
    let c := check_ultrasonic_safety env s
    if c.1.1 = false then (false, c.2)
    else
      let s := c.2
      if cd ≤ elapsed then (true, s)
      else
        let sleep_time := min check_interval (cd - elapsed)
        let s := if 0 < sleep_time then sleepP .constant sleep_time s else s
        const_loop env cd fuel (elapsed + sleep_time) s

/-! ## move_distance (controls.py 263-458) -/

/-- duration_s in move_distance (lines 296-301). -/
def md_duration (distance_m robot_speed : ℚ) : ℚ :=
  |distance_m| / (clampSpeed robot_speed * MOTOR_SPEED_FACTOR)

/-- (acceleration_time, deceleration_time, constant_duration) of
move_distance, lines 303-321, including the renormalization branch for
negative constant duration. -/
def md_phase_times (distance_m robot_speed : ℚ) : ℚ × ℚ × ℚ :=
  let duration_s := md_duration distance_m robot_speed
  let acceleration_time := duration_s * ACCEL_DECEL_FRACTION
  let deceleration_time := duration_s * ACCEL_DECEL_FRACTION
  let constant_duration := duration_s - acceleration_time * (1/2) - deceleration_time * (1/2)
  if constant_duration < 0 then
    let total_phase_time := acceleration_time + deceleration_time
    if 0 < total_phase_time then
      let scale_factor := duration_s / total_phase_time
      (acceleration_time * (scale_factor * (1/2)), deceleration_time * (scale_factor * (1/2)), 0)
    else (0, 0, duration_s)
  else (acceleration_time, deceleration_time, constant_duration)

/-- offset_to_apply of move_distance, lines 330-344. -/
def md_offset_to_apply (distance_m robot_speed : ℚ) : ℚ :=
  let motor_value := clampSpeed robot_speed
  if 0 < pysign distance_m then
    if 1 < motor_value + LEFT_MOTOR_OFFSET then
      LEFT_MOTOR_OFFSET - (motor_value + LEFT_MOTOR_OFFSET - 1)
    else LEFT_MOTOR_OFFSET
  else
    if -motor_value - LEFT_MOTOR_OFFSET < -1 then
      -LEFT_MOTOR_OFFSET + |-motor_value - LEFT_MOTOR_OFFSET + 1|
    else -LEFT_MOTOR_OFFSET

/-- (left_motor, right_motor) of move_distance for the constant phase,
lines 346-358, including the right-motor overflow redistribution branch. -/
def md_motors (distance_m robot_speed : ℚ) : ℚ × ℚ :=
  let motor_value := clampSpeed robot_speed
  let direction := pysign distance_m
  let left_motor := motor_value * direction + md_offset_to_apply distance_m robot_speed
  let right_motor := motor_value * direction
  if 1 < left_motor then (1, max 0 (motor_value - (left_motor - 1)) * direction)
  else if left_motor < -1 then (-1, min 0 (-motor_value + |left_motor + 1|) * direction)
  else (left_motor, right_motor)

/-- RobotController.move_distance (controls.py 263-458).  Result `none`
means an uncaught driver exception propagated out of the call. -/
def move_distance (env : Env) (distance_m robot_speed : ℚ) (s : St) : Option MoveRes × St :=
  if distance_m = 0 then report .invalid_movement env s
  else
    let direction := pysign distance_m
    let pt := md_phase_times distance_m robot_speed
    let lr := md_motors distance_m robot_speed
    let fwd : Bool := decide (0 < direction)
    let c0 := if fwd then check_ultrasonic_safety env s else ((true, none), s)
    if c0.1.1 = false then report .safety env c0.2
    else
      let a1 := smooth_start env lr.1 lr.2 pt.1 (md_offset_to_apply distance_m robot_speed) fwd c0.2
      if a1.1 = false then report .safety env a1.2
      else
        let c2 :=
          if 0 < pt.2.2 then
            if fwd then const_loop env pt.2.2 (const_fuel pt.2.2) 0 a1.2
            else (true, sleepP .constant pt.2.2 a1.2)
          else (true, a1.2)
        if c2.1 = false then report .safety env c2.2
        else
          let d3 := smooth_stop env lr.1 lr.2 pt.2.1 fwd c2.2
          if d3.1.1 = false then (some ⟨.safety, d3.1.2⟩, d3.2)
          else report .completed env d3.2

/-! ## rotate (controls.py 460-546) -/

/-- (left_motor, right_motor) of rotate, lines 506-511. -/
def rotate_motors (angle_degrees robot_speed : ℚ) : ℚ × ℚ :=
  let motor_value := clampSpeed robot_speed
  if 0 < angle_degrees then (motor_value, -motor_value) else (-motor_value, motor_value)

/-- duration_s of rotate (lines 481-492) given angle_rad = radians(|angle|)
as a rational parameter. -/
def rotate_duration (angle_degrees robot_speed angle_rad : ℚ) : ℚ :=
  let motor_value := clampSpeed robot_speed
  let actual_speed := motor_value * MOTOR_SPEED_FACTOR
  let wheel_distance := angle_rad * WHEELBASE_M / 2
  let duration0 := wheel_distance / actual_speed
  let angle_abs := |angle_degrees|
  if 90 < angle_abs then
    let overshoot_pct :=
      min (OSHOOT_CORRECTION_START + (angle_abs - 90) * OSHOOT_CORRECTION_SLOPE)
        OSHOOT_CORRECTION_MAX
    duration0 * (1 - overshoot_pct)
  else duration0

/-- (constant_duration, deceleration_time) of rotate (lines 494-503),
including the renormalization branch for very short rotations. -/
def rotate_phase_times (angle_degrees robot_speed angle_rad : ℚ) : ℚ × ℚ :=
  let duration_s := rotate_duration angle_degrees robot_speed angle_rad
  let deceleration_time := max MIN_ACCEL_DECEL_TIME (duration_s * ACCEL_DECEL_FRACTION)
  let constant_duration := duration_s - deceleration_time * (1/2)
  if constant_duration < 0 then (duration_s * (1/10), duration_s - duration_s * (1/10))
  else (constant_duration, deceleration_time)

/-- RobotController.rotate (controls.py 460-546): no safety interlock. -/
def rotate (env : Env) (angle_degrees robot_speed angle_rad : ℚ) (s : St) : Option MoveRes × St :=
  if angle_degrees = 0 then report .invalid_movement env s
  else
    let motor_value := clampSpeed robot_speed
    let cdd := rotate_phase_times angle_degrees robot_speed angle_rad
    let lr := rotate_motors angle_degrees robot_speed
    let start_value := min STATIC_FRICTION_THRESHOLD |motor_value|
    let s := writeM (start_value * pysign lr.1) (start_value * pysign lr.2) s
    let s := sleepP .other (1/20) s
    let s := writeM lr.1 lr.2 s
    let s := if 0 < cdd.1 then sleepP .constant cdd.1 s else s
    let d := smooth_stop env lr.1 lr.2 cdd.2 false s
    report .completed env d.2

/-! ## move_arc (controls.py 548-808) -/

/-- radius_abs floored at half the track width (lines 586-589). -/
def arc_radius_abs (radius_m : ℚ) : ℚ :=
  let min_radius := WHEELBASE_M / 2
  if |radius_m| < min_radius then min_radius else |radius_m|

def arc_inner_radius (radius_m : ℚ) : ℚ := arc_radius_abs radius_m - WHEELBASE_M / 2

def arc_outer_radius (radius_m : ℚ) : ℚ := arc_radius_abs radius_m + WHEELBASE_M / 2

/-- speed_ratio in move_arc (lines 615-635): identical computation in both
radius-sign branches. -/
def arc_speed_scale (radius_m robot_speed : ℚ) : ℚ :=
  let motor_value := clampSpeed robot_speed
  let r0 := if 0 < arc_outer_radius radius_m then
    arc_inner_radius radius_m / arc_outer_radius radius_m else 0
  if r0 < MIN_MOTOR_VALUE / motor_value then MIN_MOTOR_VALUE / motor_value else r0

/-- (base_left_motor, base_right_motor) of move_arc, lines 610-639. -/
def arc_base_motors (radius_m angle_degrees robot_speed : ℚ) : ℚ × ℚ :=
  let motor_value := clampSpeed robot_speed
  let direction := pysign angle_degrees
  let sr := arc_speed_scale radius_m robot_speed
  if 0 < radius_m then (motor_value * sr * direction, motor_value * direction)
  else (motor_value * direction, motor_value * sr * direction)

/-- offset_to_apply of move_arc, lines 641-650 (forward movement only). -/
def arc_offset_to_apply (radius_m angle_degrees robot_speed : ℚ) : ℚ :=
  let bl := (arc_base_motors radius_m angle_degrees robot_speed).1
  if 0 < pysign angle_degrees then
    if 1 < bl + LEFT_MOTOR_OFFSET then LEFT_MOTOR_OFFSET - (bl + LEFT_MOTOR_OFFSET - 1)
    else LEFT_MOTOR_OFFSET
  else 0

/-- (left_motor, right_motor) of move_arc, lines 652-665, including the
right-motor overflow redistribution branch. -/
def arc_motors (radius_m angle_degrees robot_speed : ℚ) : ℚ × ℚ :=
  let direction := pysign angle_degrees
  let b := arc_base_motors radius_m angle_degrees robot_speed
  let left_motor := b.1 + arc_offset_to_apply radius_m angle_degrees robot_speed
  let right_motor := b.2
  if 1 < left_motor then (1, max 0 (right_motor - (left_motor - 1)) * direction)
  else if left_motor < -1 then (-1, min 0 (right_motor + |left_motor + 1|) * direction)
  else (left_motor, right_motor)

/-- duration_s of move_arc (lines 591-597): arc distance at the effective
(floored) radius over the calibrated linear speed. -/
def arc_duration (radius_m robot_speed angle_rad : ℚ) : ℚ :=
  arc_radius_abs radius_m * angle_rad / (clampSpeed robot_speed * MOTOR_SPEED_FACTOR)

/-- (constant_duration, deceleration_time) of move_arc (lines 599-608). -/
def arc_phase_times (radius_m robot_speed angle_rad : ℚ) : ℚ × ℚ :=
  let duration_s := arc_duration radius_m robot_speed angle_rad
  let deceleration_time := max MIN_ACCEL_DECEL_TIME (duration_s * ACCEL_DECEL_FRACTION)
  let constant_duration := duration_s - deceleration_time * (1/2)
  if constant_duration < 0 then (duration_s * (1/10), duration_s - duration_s * (1/10))
  else (constant_duration, deceleration_time)

/-- RobotController.move_arc (controls.py 548-808), with
angle_rad = radians(|angle|) as a rational parameter. -/
def move_arc (env : Env) (radius_m angle_degrees robot_speed angle_rad : ℚ) (s : St) :
    Option MoveRes × St :=
  if angle_degrees = 0 ∨ radius_m = 0 then report .invalid_movement env s
  else
    let cdd := arc_phase_times radius_m robot_speed angle_rad
    let lr := arc_motors radius_m angle_degrees robot_speed
    let fwd : Bool := decide (0 < pysign angle_degrees)
    let c0 := if fwd then check_ultrasonic_safety env s else ((true, none), s)
    if c0.1.1 = false then report .safety env c0.2
    else
      let s := c0.2
      let start_left := min STATIC_FRICTION_THRESHOLD |lr.1|
      let start_right := min STATIC_FRICTION_THRESHOLD |lr.2|
      let s := writeM (start_left * pysign lr.1) (start_right * pysign lr.2) s
      let c1 := if fwd then check_ultrasonic_safety env s else ((true, none), s)
      if c1.1.1 = false then report .safety env c1.2
      else
        let s := sleepP .other (1/20) c1.2
        let c2 := if fwd then check_ultrasonic_safety env s else ((true, none), s)
        if c2.1.1 = false then report .safety env c2.2
        else
          let s := writeM lr.1 lr.2 c2.2
          let c3 := if fwd then check_ultrasonic_safety env s else ((true, none), s)
          if c3.1.1 = false then report .safety env c3.2
          else
            let c4 :=
              if 0 < cdd.1 then
                if fwd then const_loop env cdd.1 (const_fuel cdd.1) 0 c3.2
                else (true, sleepP .constant cdd.1 c3.2)
              else (true, c3.2)
            if c4.1 = false then report .safety env c4.2
            else
              let d5 := smooth_stop env lr.1 lr.2 cdd.2 fwd c4.2
              if d5.1.1 = false then (some ⟨.safety, d5.1.2⟩, d5.2)
              else report .completed env d5.2

/-! ## rotate_until_object_center (controls.py 836-997)

The websocket label push (set_labels) is external networking and is modelled
as succeeding; the cached DetectionFrame observed at the k-th inspection is
`frames k` (index 0 = the pre-sweep cache check, index i = the cache after
the i-th increment). -/

structure Box where
  x1 : ℚ
  x2 : ℚ
deriving DecidableEq

structure Detection where
  class_name : String
  box : Box
deriving DecidableEq

structure Frame where
  detections : List Detection
deriving DecidableEq

structure VisionEnv where
  frames : ℕ → Option Frame

inductive SStatus where
  | found
  | not_found
deriving DecidableEq

structure RotRes where
  status : SStatus
  angle_degrees_found : ℚ
  found_item : Option String
  distance_from_center_px : Option ℚ
deriving DecidableEq

def increment_degrees : ℚ := 15

/-- num_increments = int(360 / 15) * 2 = 48 (line 934). -/
def num_increments : ℕ := (360 / 15) * 2

/-- Horizontal distance of a detection's box center from the image center
(lines 963-971). -/
def center_dist (d : Detection) : ℚ :=
  |(d.box.x1 + d.box.x2) / 2 - IMAGE_WIDTH / 2|

/-- The inner-loop matching test (lines 955-974): the detection's class is
among the target items and its box center is within center_threshold of the
image's horizontal center. -/
def detection_match (items : List String) (center_threshold : ℚ) (d : Detection) : Bool :=
  items.contains d.class_name && decide (center_dist d ≤ center_threshold)

/-- The first detection in the cached frame that matches (the inner for-loop
returns on the first detection passing both tests). -/
def find_centered (items : List String) (center_threshold : ℚ) (ds : List Detection) :
    Option Detection :=
  ds.find? (detection_match items center_threshold)

/-- The match result at inspection point k (none when the cache is None or
no detection matches). -/
def frame_hit (ve : VisionEnv) (items : List String) (center_threshold : ℚ) (k : ℕ) :
    Option Detection :=
  match ve.frames k with
  | none => none
  | some f => find_centered items center_threshold f.detections

/-- The sweep loop (lines 936-986): rotate one 15-degree increment, then
inspect the cache; return found on the first match, else continue for at
most `rem` further increments. -/
def sweep (ve : VisionEnv) (items : List String) (center_threshold : ℚ) :
    ℕ → ℕ → ℚ → RotRes
  | _, 0, total => ⟨.not_found, total, none, none⟩
  | i, rem + 1, total =>
    let total := total + increment_degrees
    match frame_hit ve items center_threshold (i + 1) with
    | some det => ⟨.found, total, some det.class_name, some (center_dist det)⟩
    | none => sweep ve items center_threshold (i + 1) rem total

/-- RobotController.rotate_until_object_center (controls.py 836-997).
`none` models the ValueError raised on an empty item list. -/
def rotate_until_object_center (ve : VisionEnv) (items : List String)
    (center_threshold : ℚ) : Option RotRes :=
  if items = [] then none
  else if (ve.frames 0).isNone then some ⟨.not_found, 0, none, none⟩
  else some (sweep ve items center_threshold 0 num_increments 0)

/-! ## Concrete environments used by witnesses and counterexamples -/

/-- Sensor always reads 1 m (safe). -/
def envSafe : Env := ⟨fun _ => some (some 1)⟩

/-- Sensor always reads 0.03 m (an obstacle inside the safety threshold). -/
def envTrip : Env := ⟨fun _ => some (some (3/100))⟩

/-- First read returns 0.2 m; every later read raises an exception. -/
def envRaise1 : Env := ⟨fun i => if i = 0 then some (some (1/5)) else none⟩

def bottle : String := "bottle"

def cup : String := "cup"

/-- A frame with no detections. -/
def emptyFrame : Frame := ⟨[]⟩

/-- A frame whose only detection is a bottle whose box center (800 px) is
20 px left of the image center. -/
def bottleFrame : Frame := ⟨[⟨bottle, ⟨700, 900⟩⟩]⟩

/-- Detection feed reporting the bottle centered from the 6th increment on;
before that the cache holds a detection-free frame. -/
def veBottle6 : VisionEnv := ⟨fun k => if 6 ≤ k then some bottleFrame else some emptyFrame⟩

/-- Detection feed that never reports a matching detection. -/
def veMiss : VisionEnv := ⟨fun _ => some emptyFrame⟩

/-! ## Trace predicates -/

/-- Every motor write appended after state s has magnitude at most
MAX_MOTOR_VALUE on both wheels. -/
def WritesExt (s s' : St) : Prop :=
  ∀ w ∈ s'.writes, w ∈ s.writes ∨ (|w.1| ≤ MAX_MOTOR_VALUE ∧ |w.2| ≤ MAX_MOTOR_VALUE)

/-- Every sleep appended after state s is either outside the constant phase
or at most check_interval long. -/
def SleepExt (s s' : St) : Prop :=
  ∀ p ∈ s'.sleeps, p ∈ s.sleeps ∨ p.1 ≠ Phase.constant ∨ p.2 ≤ check_interval

/-- Executable form: both wheels of a write are within MAX_MOTOR_VALUE. -/
def wheelOK (w : ℚ × ℚ) : Bool :=
  decide (|w.1| ≤ MAX_MOTOR_VALUE) && decide (|w.2| ≤ MAX_MOTOR_VALUE)

/-- Executable form: every logged write is within MAX_MOTOR_VALUE. -/
def writesOK (s : St) : Bool := s.writes.all wheelOK

/-- Executable form: every logged constant-phase sleep is at most
check_interval. -/
def constSleepsOK (s : St) : Bool :=
  (s.sleeps.filter (fun p => decide (p.1 = Phase.constant))).all
    (fun p => decide (p.2 ≤ check_interval))

/-! # Lemmas -/

theorem writesExt_refl (s : St) : WritesExt s s := fun _ hw => Or.inl hw

theorem writesExt_trans {s1 s2 s3 : St} (h1 : WritesExt s1 s2) (h2 : WritesExt s2 s3) :
    WritesExt s1 s3 := by
  intro w hw
  rcases h2 w hw with h | h
  · exact h1 w h
  · exact Or.inr h

theorem sleepExt_refl (s : St) : SleepExt s s := fun _ hp => Or.inl hp

theorem sleepExt_trans {s1 s2 s3 : St} (h1 : SleepExt s1 s2) (h2 : SleepExt s2 s3) :
    SleepExt s1 s3 := by
  intro p hp
  rcases h2 p hp with h | h
  · exact h1 p h
  · exact Or.inr h

theorem writesExt_writeM (s : St) {l r : ℚ} (hl : |l| ≤ MAX_MOTOR_VALUE)
    (hr : |r| ≤ MAX_MOTOR_VALUE) : WritesExt s (writeM l r s) := by
  intro w hw
  simp only [writeM, List.mem_cons] at hw
  rcases hw with h | h
  · subst h; exact Or.inr ⟨hl, hr⟩
  · exact Or.inl h

theorem sleepExt_writeM (s : St) (l r : ℚ) : SleepExt s (writeM l r s) := fun _ hp => Or.inl hp

theorem writesExt_sleepP (s : St) (ph : Phase) (t : ℚ) : WritesExt s (sleepP ph t s) :=
  fun _ hw => Or.inl hw

theorem sleepExt_sleepP (s : St) {ph : Phase} {t : ℚ}
    (h : ph ≠ Phase.constant ∨ t ≤ check_interval) : SleepExt s (sleepP ph t s) := by
  intro p hp
  simp only [sleepP, List.mem_cons] at hp
  rcases hp with h' | h'
  · subst h'; exact Or.inr h
  · exact Or.inl h'

theorem writesExt_robot_stop (s : St) : WritesExt s (robot_stop s) :=
  writesExt_writeM s (by norm_num [MAX_MOTOR_VALUE]) (by norm_num [MAX_MOTOR_VALUE])

theorem sleepExt_robot_stop (s : St) : SleepExt s (robot_stop s) := fun _ hp => Or.inl hp

theorem writesOK_of_ext {s : St} (h : WritesExt St.init s) : writesOK s = true := by
  rw [writesOK, List.all_eq_true]
  intro w hw
  rcases h w hw with h' | ⟨h1, h2⟩
  · simp [St.init] at h'
  · simp only [wheelOK, Bool.and_eq_true, decide_eq_true_eq]
    exact ⟨h1, h2⟩

theorem constSleepsOK_of_ext {s : St} (h : SleepExt St.init s) : constSleepsOK s = true := by
  rw [constSleepsOK, List.all_eq_true]
  intro p hp
  rw [List.mem_filter] at hp
  rcases h p hp.1 with h' | h' | h'
  · simp [St.init] at h'
  · simp only [decide_eq_true_eq] at hp
    exact absurd hp.2 h'
  · simpa using h'

/-! ## check_ultrasonic_safety lemmas -/

theorem check_cases (env : Env) (s : St) :
    ((check_ultrasonic_safety env s).1.1 = true ∧
      (check_ultrasonic_safety env s).2 = { s with idx := s.idx + 1 }) ∨
    ((check_ultrasonic_safety env s).1.1 = false ∧
      (check_ultrasonic_safety env s).2 =
        robot_stop { s with idx := s.idx + 1, tripped := true }) := by
  rcases h : env.read s.idx with _ | (_ | d)
  · exact Or.inl ⟨by simp [check_ultrasonic_safety, read_distance, h],
      by simp [check_ultrasonic_safety, read_distance, h]⟩
  · exact Or.inl ⟨by simp [check_ultrasonic_safety, read_distance, h],
      by simp [check_ultrasonic_safety, read_distance, h]⟩
  · by_cases hd : d < ULTRASONIC_SAFETY_THRESHOLD_M
    · exact Or.inr ⟨by simp [check_ultrasonic_safety, read_distance, h, hd],
        by simp [check_ultrasonic_safety, read_distance, h, hd]⟩
    · exact Or.inl ⟨by simp [check_ultrasonic_safety, read_distance, h, hd],
        by simp [check_ultrasonic_safety, read_distance, h, hd]⟩

theorem check_true_state (env : Env) (s : St)
    (h : (check_ultrasonic_safety env s).1.1 = true) :
    (check_ultrasonic_safety env s).2 = { s with idx := s.idx + 1 } := by
  rcases check_cases env s with ⟨_, h2⟩ | ⟨h1, _⟩
  · exact h2
  · rw [h] at h1; cases h1

theorem check_false_state (env : Env) (s : St)
    (h : (check_ultrasonic_safety env s).1.1 = false) :
    (check_ultrasonic_safety env s).2 =
      robot_stop { s with idx := s.idx + 1, tripped := true } := by
  rcases check_cases env s with ⟨h1, _⟩ | ⟨_, h2⟩
  · rw [h] at h1; cases h1
  · exact h2

theorem check_writesExt (env : Env) (s : St) :
    WritesExt s (check_ultrasonic_safety env s).2 := by
  rcases check_cases env s with ⟨_, h2⟩ | ⟨_, h2⟩ <;> rw [h2]
  · exact fun _ hw => Or.inl hw
  · exact writesExt_robot_stop _

theorem check_sleepExt (env : Env) (s : St) :
    SleepExt s (check_ultrasonic_safety env s).2 := by
  rcases check_cases env s with ⟨_, h2⟩ | ⟨_, h2⟩ <;> rw [h2]
  · exact fun _ hp => Or.inl hp
  · exact fun _ hp => Or.inl hp

theorem check_false_motors (env : Env) (s : St)
    (h : (check_ultrasonic_safety env s).1.1 = false) :
    (check_ultrasonic_safety env s).2.motors = (0, 0) ∧
      (check_ultrasonic_safety env s).2.tripped = true := by
  rw [check_false_state env s h]
  exact ⟨rfl, rfl⟩

theorem check_true_tripped (env : Env) (s : St)
    (h : (check_ultrasonic_safety env s).1.1 = true) :
    (check_ultrasonic_safety env s).2.tripped = s.tripped := by
  rw [check_true_state env s h]

/-! ## report lemmas -/

theorem report_state (st : MStatus) (env : Env) (s : St) :
    (report st env s).2 = { s with idx := s.idx + 1 } := by
  rcases h : env.read s.idx with _ | d <;> simp [report, read_distance, h]

theorem report_status (st : MStatus) (env : Env) (s : St) :
    (report st env s).1 = none ∨ (report st env s).1.map MoveRes.status = some st := by
  rcases h : env.read s.idx with _ | d
  · exact Or.inl (by simp [report, read_distance, h])
  · exact Or.inr (by simp [report, read_distance, h])

/-! ## pysign / clampSpeed lemmas -/

theorem pysign_cases (x : ℚ) : pysign x = 1 ∨ pysign x = -1 := by
  unfold pysign; split
  · exact Or.inl rfl
  · exact Or.inr rfl

theorem abs_pysign (x : ℚ) : |pysign x| = 1 := by
  rcases pysign_cases x with h | h <;> rw [h] <;> norm_num

theorem pysign_pos_iff (x : ℚ) : 0 < pysign x ↔ 0 ≤ x := by
  unfold pysign
  split <;> rename_i h
  · simpa using h
  · constructor
    · intro h'; norm_num at h'
    · intro h'; exact absurd h' h

theorem clampSpeed_lb (sp : ℚ) : MIN_MOTOR_VALUE ≤ clampSpeed sp := le_max_left _ _

theorem clampSpeed_ub (sp : ℚ) : clampSpeed sp ≤ MAX_MOTOR_VALUE := by
  unfold clampSpeed
  apply max_le
  · norm_num [MIN_MOTOR_VALUE, MAX_MOTOR_VALUE]
  · exact min_le_right _ _

theorem clampSpeed_pos (sp : ℚ) : 0 < clampSpeed sp :=
  lt_of_lt_of_le (by norm_num [MIN_MOTOR_VALUE]) (clampSpeed_lb sp)

/-! ## State-field simp lemmas -/

@[simp] theorem writeM_tripped (l r : ℚ) (s : St) : (writeM l r s).tripped = s.tripped := rfl

@[simp] theorem writeM_sleeps (l r : ℚ) (s : St) : (writeM l r s).sleeps = s.sleeps := rfl

@[simp] theorem writeM_motors (l r : ℚ) (s : St) : (writeM l r s).motors = (l, r) := rfl

@[simp] theorem sleepP_tripped (p : Phase) (t : ℚ) (s : St) : (sleepP p t s).tripped = s.tripped := rfl

@[simp] theorem sleepP_writes (p : Phase) (t : ℚ) (s : St) : (sleepP p t s).writes = s.writes := rfl

@[simp] theorem sleepP_motors (p : Phase) (t : ℚ) (s : St) : (sleepP p t s).motors = s.motors := rfl

@[simp] theorem robot_stop_motors (s : St) : (robot_stop s).motors = (0, 0) := rfl

@[simp] theorem robot_stop_tripped (s : St) : (robot_stop s).tripped = s.tripped := rfl

/-- Bounds for the linear interpolation used by the ramp loops. -/
theorem convex_bounds {a b p : ℚ} (h0 : 0 ≤ a) (h1 : a ≤ b) (h2 : b ≤ 1)
    (hp0 : 0 ≤ p) (hp1 : p ≤ 1) : 0 ≤ a + (b - a) * p ∧ a + (b - a) * p ≤ 1 := by
  constructor <;> nlinarith

/-- Properties of one conditional safety check used inside the loops. -/
theorem cond_check_spec (env : Env) (check : Bool) (s : St) (cb : Bool) (cd : Option ℚ) (cs : St)
    (hcc : (if check then check_ultrasonic_safety env s else ((true, none), s)) = ((cb, cd), cs)) :
    (cb = true → cs.tripped = s.tripped ∧ cs.writes = s.writes ∧ cs.sleeps = s.sleeps) ∧
    (cb = false → cs.tripped = true ∧ cs.motors = (0, 0)) ∧
    WritesExt s cs ∧ SleepExt s cs := by
  cases check with
  | false =>
    simp only [if_neg, Bool.false_eq_true, if_false] at hcc
    obtain ⟨h1, h2⟩ := Prod.mk.injEq .. ▸ hcc
    obtain ⟨hb, _⟩ := Prod.mk.injEq .. ▸ h1
    subst h2
    constructor
    · exact fun _ => ⟨rfl, rfl, rfl⟩
    constructor
    · intro hf; rw [← hb] at hf; cases hf
    · exact ⟨writesExt_refl s, sleepExt_refl s⟩
  | true =>
    simp only [if_pos, if_true] at hcc
    rcases check_cases env s with ⟨h1, h2⟩ | ⟨h1, h2⟩ <;> rw [hcc] at h1 h2 <;>
      simp only at h1 h2 <;> subst h2
    · constructor
      · exact fun _ => ⟨rfl, rfl, rfl⟩
      constructor
      · intro hf; rw [hf] at h1; cases h1
      constructor
      · exact fun _ hw => Or.inl hw
      · exact fun _ hp => Or.inl hp
    · constructor
      · intro ht; rw [ht] at h1; cases h1
      constructor
      · exact fun _ => ⟨rfl, rfl⟩
      constructor
      · exact writesExt_writeM _ (by norm_num [MAX_MOTOR_VALUE]) (by norm_num [MAX_MOTOR_VALUE])
      · exact fun _ hp => Or.inl hp

/-- Invariant of the _smooth_start step loop: an aborted run has tripped and
stopped motors, a completed run preserves the trip flag, and all writes and
sleeps added by the loop are in bounds. -/
theorem smooth_start_loop_spec (env : Env) (step_time start_l start_r lba rab ld rd loff odir : ℚ)
    (check : Bool)
    (hsl0 : 0 ≤ start_l) (hsl1 : start_l ≤ lba) (hlba : lba ≤ 1)
    (hsr0 : 0 ≤ start_r) (hsr1 : start_r ≤ rab) (hrab : rab ≤ 1)
    (hld : |ld| = 1) (hrd : |rd| = 1) :
    ∀ l : List ℕ, (∀ n ∈ l, n < ACCEL_DECEL_STEPS) →
    ∀ s b s',
      smooth_start_loop env step_time start_l start_r lba rab ld rd loff odir check l s = (b, s') →
      (b = true → s'.tripped = s.tripped) ∧
      (b = false → s'.tripped = true ∧ s'.motors = (0, 0)) ∧
      WritesExt s s' ∧ SleepExt s s' := by
  intro l
  induction l with
  | nil =>
    intro _ s b s' h
    rw [smooth_start_loop] at h
    obtain ⟨h1, h2⟩ := Prod.mk.injEq .. ▸ h
    subst h2
    refine ⟨fun _ => rfl, fun hf => ?_, writesExt_refl s, sleepExt_refl s⟩
    rw [← h1] at hf; cases hf
  | cons step rest ih =>
    intro hmem s b s' h
    have hstep : step < ACCEL_DECEL_STEPS := hmem step (by simp)
    have hrest : ∀ n ∈ rest, n < ACCEL_DECEL_STEPS := fun n hn => hmem n (by simp [hn])
    rw [smooth_start_loop] at h
    rcases hcc : (if check then check_ultrasonic_safety env s else ((true, none), s)) with
      ⟨⟨cb, cd⟩, cs⟩
    obtain ⟨hcT, hcF, hcW, hcS⟩ := cond_check_spec env check s cb cd cs hcc
    rw [hcc] at h
    simp only at h
    cases cb with
    | false =>
      rw [if_pos rfl] at h
      obtain ⟨h1, h2⟩ := Prod.mk.injEq .. ▸ h
      subst h2
      obtain ⟨ht, hm⟩ := hcF rfl
      refine ⟨fun htr => ?_, fun _ => ⟨ht, hm⟩, hcW, hcS⟩
      rw [← h1] at htr; cases htr
    | true =>
      rw [if_neg (by simp)] at h
      -- bounds for the pair actually written at this step
      have hp0 : (0 : ℚ) ≤ ((step : ℚ) + 1) / (ACCEL_DECEL_STEPS : ℚ) := by
        positivity
      have hp1 : ((step : ℚ) + 1) / (ACCEL_DECEL_STEPS : ℚ) ≤ 1 := by
        rw [div_le_one (by norm_num [ACCEL_DECEL_STEPS])]
        have : (step : ℚ) + 1 ≤ (ACCEL_DECEL_STEPS : ℚ) := by
          exact_mod_cast Nat.succ_le_of_lt hstep
        exact this
      obtain ⟨hlv0, hlv1⟩ := convex_bounds hsl0 hsl1 hlba hp0 hp1
      obtain ⟨hrv0, hrv1⟩ := convex_bounds hsr0 hsr1 hrab hp0 hp1
      set p : ℚ := ((step : ℚ) + 1) / (ACCEL_DECEL_STEPS : ℚ) with hpdef
      set lv0 : ℚ := (start_l + (lba - start_l) * p) * ld with hlvdef
      set rv0 : ℚ := (start_r + (rab - start_r) * p) * rd with hrvdef
      have hlv0abs : |lv0| ≤ 1 := by
        rw [hlvdef, abs_mul, hld, mul_one, abs_le]
        constructor <;> linarith
      have hrv0abs : |rv0| ≤ 1 := by
        rw [hrvdef, abs_mul, hrd, mul_one, abs_le]
        constructor <;> linarith
      have hwb : ∀ q : ℚ × ℚ,
          (if 0 < |loff| then
            if 1 < lv0 + loff * odir then (1, max 0 (rv0 - (lv0 + loff * odir - 1)) * rd)
            else if lv0 + loff * odir < -1 then
              (-1, min 0 (rv0 + |lv0 + loff * odir + 1|) * rd)
            else (lv0 + loff * odir, rv0)
          else (lv0, rv0)) = q → |q.1| ≤ 1 ∧ |q.2| ≤ 1 := by
        intro q hq
        have hrv0' : -1 ≤ rv0 * rd ∧ rv0 * rd ≤ 1 := by
          have : |rv0 * rd| ≤ 1 := by rw [abs_mul, hrd, mul_one]; exact hrv0abs
          exact abs_le.1 this
        split_ifs at hq with h1 h2 h3
        · subst hq
          constructor
          · simp
          · simp only
            rw [abs_mul, hrd, mul_one, abs_le]
            constructor
            · have : (0:ℚ) ≤ max 0 (rv0 - (lv0 + loff * odir - 1)) := le_max_left _ _
              linarith
            · have h5 : rv0 - (lv0 + loff * odir - 1) ≤ rv0 := by linarith
              have h6 : max 0 (rv0 - (lv0 + loff * odir - 1)) ≤ max 0 rv0 :=
                max_le_max le_rfl h5
              have h7 : max 0 rv0 ≤ 1 := by
                apply max_le (by norm_num)
                have := abs_le.1 hrv0abs
                exact this.2
              linarith
        · subst hq
          constructor
          · simp
          · simp only
            rw [abs_mul, hrd, mul_one, abs_le]
            have h5 : min 0 (rv0 + |lv0 + loff * odir + 1|) ≤ 0 := min_le_left _ _
            have h6 : -1 ≤ rv0 := (abs_le.1 hrv0abs).1
            have h7 : (0:ℚ) ≤ |lv0 + loff * odir + 1| := abs_nonneg _
            have h8 : -1 ≤ min 0 (rv0 + |lv0 + loff * odir + 1|) :=
              le_min (by norm_num) (by linarith)
            constructor <;> linarith
        · subst hq
          refine ⟨?_, hrv0abs⟩
          show |lv0 + loff * odir| ≤ 1
          rw [abs_le]
          exact ⟨not_lt.1 h3, not_lt.1 h2⟩
        · subst hq
          exact ⟨hlv0abs, hrv0abs⟩
      -- now h is the recursive call from the post-write state
      rcases hq : (if 0 < |loff| then
          if 1 < lv0 + loff * odir then (1, max 0 (rv0 - (lv0 + loff * odir - 1)) * rd)
          else if lv0 + loff * odir < -1 then
            (-1, min 0 (rv0 + |lv0 + loff * odir + 1|) * rd)
          else (lv0 + loff * odir, rv0)
        else (lv0, rv0)) with ⟨lw, rw'⟩
      obtain ⟨hlw, hrw⟩ := hwb (lw, rw') hq
      rw [hq] at h
      set s2 : St := (if 0 < step_time then
          sleepP Phase.accel step_time (writeM lw rw' cs) else writeM lw rw' cs) with hs2
      have hs2T : s2.tripped = cs.tripped := by
        rw [hs2]; split <;> simp
      have hs2W : WritesExt cs s2 := by
        rw [hs2]; split
        · exact writesExt_trans (writesExt_writeM cs hlw hrw) (writesExt_sleepP _ _ _)
        · exact writesExt_writeM cs hlw hrw
      have hs2S : SleepExt cs s2 := by
        rw [hs2]; split
        · exact sleepExt_trans (sleepExt_writeM cs _ _)
            (sleepExt_sleepP _ (Or.inl (by intro hx; cases hx)))
        · exact sleepExt_writeM cs _ _
      obtain ⟨hT, hF, hW, hS⟩ := ih hrest s2 b s' h
      obtain ⟨hcsT, _, _⟩ := hcT rfl
      refine ⟨?_, hF, writesExt_trans hcW (writesExt_trans hs2W hW),
        sleepExt_trans hcS (sleepExt_trans hs2S hS)⟩
      intro hb
      rw [hT hb, hs2T, hcsT]

theorem check_spec (env : Env) (s : St) (cb : Bool) (cd : Option ℚ) (cs : St)
    (hcc : check_ultrasonic_safety env s = ((cb, cd), cs)) :
    (cb = true → cs.tripped = s.tripped ∧ cs.writes = s.writes ∧ cs.sleeps = s.sleeps) ∧
    (cb = false → cs.tripped = true ∧ cs.motors = (0, 0)) ∧
    WritesExt s cs ∧ SleepExt s cs :=
  cond_check_spec env true s cb cd cs (by simpa using hcc)

/-- Invariant of _smooth_start including the wrapper (early return for
non-positive acceleration time and the final write of the exact targets). -/
theorem smooth_start_spec (env : Env) (lmt rmt at_ loff : ℚ) (check : Bool) (s : St)
    (h1 : |lmt - loff| ≤ 1) (h2 : |rmt| ≤ 1) (h3 : |lmt| ≤ 1) :
    ∀ b s', smooth_start env lmt rmt at_ loff check s = (b, s') →
      (b = true → s'.tripped = s.tripped) ∧
      (b = false → s'.tripped = true ∧ s'.motors = (0, 0)) ∧
      WritesExt s s' ∧ SleepExt s s' := by
  intro b s' h
  simp only [smooth_start] at h
  by_cases hat : at_ ≤ 0
  · rw [if_pos hat] at h
    obtain ⟨hb, hs⟩ := Prod.mk.injEq .. ▸ h
    subst hs
    refine ⟨fun _ => by simp, fun hf => ?_, writesExt_writeM s h3 h2, sleepExt_writeM s _ _⟩
    rw [← hb] at hf; cases hf
  · rw [if_neg hat] at h
    generalize hod : (if lmt - loff ≠ 0 then pysign (lmt - loff) else pysign loff) = odir at h
    rcases hr : smooth_start_loop env (at_ / (ACCEL_DECEL_STEPS : ℚ))
        (min STATIC_FRICTION_THRESHOLD |lmt - loff|) (min STATIC_FRICTION_THRESHOLD |rmt|)
        |lmt - loff| |rmt| (pysign (lmt - loff)) (pysign rmt) loff odir check
        (List.range ACCEL_DECEL_STEPS) s with ⟨lb, ls⟩
    obtain ⟨hT, hF, hW, hS⟩ := smooth_start_loop_spec env (at_ / (ACCEL_DECEL_STEPS : ℚ))
      (min STATIC_FRICTION_THRESHOLD |lmt - loff|) (min STATIC_FRICTION_THRESHOLD |rmt|)
      |lmt - loff| |rmt| (pysign (lmt - loff)) (pysign rmt) loff odir check
      (le_min (by norm_num [STATIC_FRICTION_THRESHOLD]) (abs_nonneg _))
      (min_le_right _ _) h1
      (le_min (by norm_num [STATIC_FRICTION_THRESHOLD]) (abs_nonneg _))
      (min_le_right _ _) h2
      (abs_pysign _) (abs_pysign _)
      (List.range ACCEL_DECEL_STEPS) (fun n hn => List.mem_range.1 hn)
      s lb ls hr
    rw [hr] at h
    cases lb with
    | false =>
      rw [if_pos rfl] at h
      obtain ⟨hb, hs⟩ := Prod.mk.injEq .. ▸ h
      subst hs
      obtain ⟨ht, hm⟩ := hF rfl
      refine ⟨fun htr => ?_, fun _ => ⟨ht, hm⟩, hW, hS⟩
      rw [← hb] at htr; cases htr
    | true =>
      rw [if_neg (by simp)] at h
      obtain ⟨hb, hs⟩ := Prod.mk.injEq .. ▸ h
      subst hs
      refine ⟨fun _ => by simp [hT rfl], fun hf => ?_,
        writesExt_trans hW (writesExt_writeM ls h3 h2),
        sleepExt_trans hS (sleepExt_writeM ls _ _)⟩
      rw [← hb] at hf; cases hf

/-- Invariant of the _smooth_stop step loop. -/
theorem smooth_stop_loop_spec (env : Env) (step_time la ra ld rd : ℚ) (check : Bool)
    (hla0 : 0 ≤ la) (hla1 : la ≤ 1) (hra0 : 0 ≤ ra) (hra1 : ra ≤ 1)
    (hld : |ld| = 1) (hrd : |rd| = 1) :
    ∀ l : List ℕ, (∀ n ∈ l, n < ACCEL_DECEL_STEPS) →
    ∀ s b d s', smooth_stop_loop env step_time la ra ld rd check l s = ((b, d), s') →
      (b = true → s'.tripped = s.tripped) ∧
      (b = false → s'.tripped = true ∧ s'.motors = (0, 0)) ∧
      WritesExt s s' ∧ SleepExt s s' := by
  intro l
  induction l with
  | nil =>
    intro _ s b d s' h
    rw [smooth_stop_loop] at h
    obtain ⟨h1, h2⟩ := Prod.mk.injEq .. ▸ h
    obtain ⟨hb, _⟩ := Prod.mk.injEq .. ▸ h1
    subst h2
    refine ⟨fun _ => by simp, fun hf => ?_, writesExt_robot_stop s, sleepExt_robot_stop s⟩
    rw [← hb] at hf; cases hf
  | cons step rest ih =>
    intro hmem s b d s' h
    have hstep : step < ACCEL_DECEL_STEPS := hmem step (by simp)
    have hrest : ∀ n ∈ rest, n < ACCEL_DECEL_STEPS := fun n hn => hmem n (by simp [hn])
    rw [smooth_stop_loop] at h
    rcases hcc : (if check then check_ultrasonic_safety env s else ((true, none), s)) with
      ⟨⟨cb, cdist⟩, cs⟩
    obtain ⟨hcT, hcF, hcW, hcS⟩ := cond_check_spec env check s cb cdist cs hcc
    rw [hcc] at h
    simp only at h
    cases cb with
    | false =>
      rw [if_pos rfl] at h
      obtain ⟨h1, h2⟩ := Prod.mk.injEq .. ▸ h
      obtain ⟨hb, _⟩ := Prod.mk.injEq .. ▸ h1
      subst h2
      obtain ⟨ht, hm⟩ := hcF rfl
      refine ⟨fun htr => ?_, fun _ => ⟨ht, hm⟩, hcW, hcS⟩
      rw [← hb] at htr; cases htr
    | true =>
      rw [if_neg (by simp)] at h
      have hp0 : (0 : ℚ) ≤ 1 - (step : ℚ) / (ACCEL_DECEL_STEPS : ℚ) := by
        have : (step : ℚ) / (ACCEL_DECEL_STEPS : ℚ) ≤ 1 := by
          rw [div_le_one (by norm_num [ACCEL_DECEL_STEPS])]
          have : (step : ℚ) ≤ (ACCEL_DECEL_STEPS : ℚ) := by
            exact_mod_cast Nat.le_of_lt hstep
          exact this
        linarith
      have hp1 : 1 - (step : ℚ) / (ACCEL_DECEL_STEPS : ℚ) ≤ 1 := by
        have : (0 : ℚ) ≤ (step : ℚ) / (ACCEL_DECEL_STEPS : ℚ) := by positivity
        linarith
      set p : ℚ := 1 - (step : ℚ) / (ACCEL_DECEL_STEPS : ℚ) with hpdef
      have hlvabs : |la * p * ld| ≤ 1 := by
        rw [abs_mul, hld, mul_one, abs_mul, abs_of_nonneg hla0, abs_of_nonneg hp0]
        nlinarith
      have hrvabs : |ra * p * rd| ≤ 1 := by
        rw [abs_mul, hrd, mul_one, abs_mul, abs_of_nonneg hra0, abs_of_nonneg hp0]
        nlinarith
      generalize hql : (if |la * p * ld| < 5/100 then (0 : ℚ) else la * p * ld) = lw at h
      generalize hqr : (if |ra * p * rd| < 5/100 then (0 : ℚ) else ra * p * rd) = rw' at h
      have hlw : |lw| ≤ 1 := by
        rw [← hql]; split_ifs
        · norm_num
        · exact hlvabs
      have hrw : |rw'| ≤ 1 := by
        rw [← hqr]; split_ifs
        · norm_num
        · exact hrvabs
      set s2 : St := (if 0 < step_time then
          sleepP Phase.decel step_time (writeM lw rw' cs) else writeM lw rw' cs) with hs2
      have hs2T : s2.tripped = cs.tripped := by
        rw [hs2]; split <;> simp
      have hs2W : WritesExt cs s2 := by
        rw [hs2]; split
        · exact writesExt_trans (writesExt_writeM cs hlw hrw) (writesExt_sleepP _ _ _)
        · exact writesExt_writeM cs hlw hrw
      have hs2S : SleepExt cs s2 := by
        rw [hs2]; split
        · exact sleepExt_trans (sleepExt_writeM cs _ _)
            (sleepExt_sleepP _ (Or.inl (by intro hx; cases hx)))
        · exact sleepExt_writeM cs _ _
      obtain ⟨hT, hF, hW, hS⟩ := ih hrest s2 b d s' h
      obtain ⟨hcsT, _, _⟩ := hcT rfl
      refine ⟨?_, hF, writesExt_trans hcW (writesExt_trans hs2W hW),
        sleepExt_trans hcS (sleepExt_trans hs2S hS)⟩
      intro hb
      rw [hT hb, hs2T, hcsT]

/-- Invariant of _smooth_stop including the wrapper. -/
theorem smooth_stop_spec (env : Env) (lms rms dt : ℚ) (check : Bool) (s : St)
    (h1 : |lms| ≤ 1) (h2 : |rms| ≤ 1) :
    ∀ b d s', smooth_stop env lms rms dt check s = ((b, d), s') →
      (b = true → s'.tripped = s.tripped) ∧
      (b = false → s'.tripped = true ∧ s'.motors = (0, 0)) ∧
      WritesExt s s' ∧ SleepExt s s' := by
  intro b d s' h
  simp only [smooth_stop] at h
  split_ifs at h with hdt
  · obtain ⟨hone, hs⟩ := Prod.mk.injEq .. ▸ h
    obtain ⟨hb, _⟩ := Prod.mk.injEq .. ▸ hone
    subst hs
    refine ⟨fun _ => by simp, fun hf => ?_, writesExt_robot_stop s, sleepExt_robot_stop s⟩
    rw [← hb] at hf; cases hf
  · exact smooth_stop_loop_spec env (dt / (ACCEL_DECEL_STEPS : ℚ)) |lms| |rms|
      (pysign lms) (pysign rms) check (abs_nonneg _) h1 (abs_nonneg _) h2
      (abs_pysign _) (abs_pysign _) (List.range ACCEL_DECEL_STEPS)
      (fun n hn => List.mem_range.1 hn) s b d s' h

/-- Invariant of the constant-speed check loop. -/
theorem const_loop_spec (env : Env) (cd : ℚ) :
    ∀ fuel : ℕ, ∀ elapsed s b s', const_loop env cd fuel elapsed s = (b, s') →
      (b = true → s'.tripped = s.tripped) ∧
      (b = false → s'.tripped = true ∧ s'.motors = (0, 0)) ∧
      WritesExt s s' ∧ SleepExt s s' := by
  intro fuel
  induction fuel with
  | zero =>
    intro elapsed s b s' h
    rw [const_loop] at h
    obtain ⟨hb, hs⟩ := Prod.mk.injEq .. ▸ h
    subst hs
    refine ⟨fun _ => rfl, fun hf => ?_, writesExt_refl s, sleepExt_refl s⟩
    rw [← hb] at hf; cases hf
  | succ n ih =>
    intro elapsed s b s' h
    rw [const_loop] at h
    rcases hcc : check_ultrasonic_safety env s with ⟨⟨cb, cdist⟩, cs⟩
    obtain ⟨hcT, hcF, hcW, hcS⟩ := check_spec env s cb cdist cs hcc
    rw [hcc] at h
    simp only at h
    cases cb with
    | false =>
      rw [if_pos rfl] at h
      obtain ⟨hb, hs⟩ := Prod.mk.injEq .. ▸ h
      subst hs
      obtain ⟨ht, hm⟩ := hcF rfl
      refine ⟨fun htr => ?_, fun _ => ⟨ht, hm⟩, hcW, hcS⟩
      rw [← hb] at htr; cases htr
    | true =>
      rw [if_neg (by simp)] at h
      obtain ⟨hcsT, _, _⟩ := hcT rfl
      by_cases he : cd ≤ elapsed
      · rw [if_pos he] at h
        obtain ⟨hb, hs⟩ := Prod.mk.injEq .. ▸ h
        subst hs
        refine ⟨fun _ => hcsT, fun hf => ?_, hcW, hcS⟩
        rw [← hb] at hf; cases hf
      · rw [if_neg he] at h
        by_cases hsl : 0 < min check_interval (cd - elapsed)
        · rw [if_pos hsl] at h
          obtain ⟨hT, hF, hW, hS⟩ := ih (elapsed + min check_interval (cd - elapsed))
            (sleepP .constant (min check_interval (cd - elapsed)) cs) b s' h
          refine ⟨?_, hF,
            writesExt_trans hcW (writesExt_trans (writesExt_sleepP cs _ _) hW),
            sleepExt_trans hcS
              (sleepExt_trans (sleepExt_sleepP cs (Or.inr (min_le_left _ _))) hS)⟩
          intro hb
          rw [hT hb]; simp [hcsT]
        · rw [if_neg hsl] at h
          obtain ⟨hT, hF, hW, hS⟩ := ih _ cs b s' h
          exact ⟨fun hb => by rw [hT hb, hcsT], hF, writesExt_trans hcW hW,
            sleepExt_trans hcS hS⟩

/-! ## Profile bounds for move_distance -/

theorem clampSpeed_lb_num (sp : ℚ) : (3 : ℚ)/10 ≤ clampSpeed sp := by
  have := clampSpeed_lb sp
  simpa [MIN_MOTOR_VALUE] using this

theorem clampSpeed_ub_num (sp : ℚ) : clampSpeed sp ≤ 1 := by
  have := clampSpeed_ub sp
  simpa [MAX_MOTOR_VALUE] using this

theorem md_left_bounds (d sp : ℚ) :
    -1 ≤ clampSpeed sp * pysign d + md_offset_to_apply d sp ∧
      clampSpeed sp * pysign d + md_offset_to_apply d sp ≤ 1 := by
  have h1 := clampSpeed_lb_num sp
  have h2 := clampSpeed_ub_num sp
  unfold md_offset_to_apply
  rcases pysign_cases d with h | h <;> rw [h]
  · rw [if_pos (by norm_num)]
    simp only [LEFT_MOTOR_OFFSET]
    split_ifs with ho
    · constructor <;> linarith
    · constructor <;> linarith
  · rw [if_neg (by norm_num)]
    simp only [LEFT_MOTOR_OFFSET]
    split_ifs with ho
    · rw [abs_of_neg (by linarith)]
      constructor <;> linarith
    · constructor <;> linarith

/-- The secondary overflow-redistribution branch of move_distance
(controls.py 351-358) is unreachable: the pre-reduced offset already keeps
the left command inside the valid band. -/
theorem md_motors_eq (d sp : ℚ) :
    md_motors d sp = (clampSpeed sp * pysign d + md_offset_to_apply d sp,
      clampSpeed sp * pysign d) := by
  obtain ⟨hl, hu⟩ := md_left_bounds d sp
  simp only [md_motors]
  rw [if_neg (not_lt.2 hu), if_neg (not_lt.2 hl)]

theorem md_left_abs (d sp : ℚ) : |(md_motors d sp).1| ≤ 1 := by
  rw [md_motors_eq]
  obtain ⟨hl, hu⟩ := md_left_bounds d sp
  exact abs_le.2 ⟨hl, hu⟩

theorem md_right_abs (d sp : ℚ) : |(md_motors d sp).2| ≤ 1 := by
  rw [md_motors_eq]
  show |clampSpeed sp * pysign d| ≤ 1
  rw [abs_mul, abs_pysign, mul_one, abs_of_pos (clampSpeed_pos sp)]
  exact clampSpeed_ub_num sp

theorem md_base_abs (d sp : ℚ) :
    |(md_motors d sp).1 - md_offset_to_apply d sp| ≤ 1 := by
  rw [md_motors_eq]
  show |clampSpeed sp * pysign d + md_offset_to_apply d sp - md_offset_to_apply d sp| ≤ 1
  rw [add_sub_cancel_right, abs_mul, abs_pysign, mul_one, abs_of_pos (clampSpeed_pos sp)]
  exact clampSpeed_ub_num sp

/-! ## Profile bounds for move_arc -/

theorem arc_radius_abs_ge (rm : ℚ) : WHEELBASE_M / 2 ≤ arc_radius_abs rm := by
  simp only [arc_radius_abs]
  split_ifs with h
  · exact le_rfl
  · exact le_of_not_lt h

theorem arc_outer_pos (rm : ℚ) : 0 < arc_outer_radius rm := by
  have := arc_radius_abs_ge rm
  unfold arc_outer_radius
  simp only [WHEELBASE_M] at *
  linarith

theorem arc_inner_nonneg (rm : ℚ) : 0 ≤ arc_inner_radius rm := by
  have := arc_radius_abs_ge rm
  unfold arc_inner_radius
  linarith

theorem arc_inner_lt_outer (rm : ℚ) : arc_inner_radius rm < arc_outer_radius rm := by
  unfold arc_inner_radius arc_outer_radius
  simp only [WHEELBASE_M]
  linarith

theorem arc_speed_scale_pos (rm sp : ℚ) : 0 < arc_speed_scale rm sp := by
  have hm := clampSpeed_pos sp
  have hmin : (0 : ℚ) < MIN_MOTOR_VALUE / clampSpeed sp := by
    apply div_pos _ hm
    norm_num [MIN_MOTOR_VALUE]
  simp only [arc_speed_scale]
  rw [if_pos (arc_outer_pos rm)]
  split_ifs with h
  · exact hmin
  · exact lt_of_lt_of_le hmin (le_of_not_lt h)

theorem arc_speed_scale_le_one (rm sp : ℚ) : arc_speed_scale rm sp ≤ 1 := by
  simp only [arc_speed_scale]
  rw [if_pos (arc_outer_pos rm)]
  split_ifs with h
  · rw [div_le_one (clampSpeed_pos sp)]
    exact clampSpeed_lb sp
  · rw [div_le_one (arc_outer_pos rm)]
    exact le_of_lt (arc_inner_lt_outer rm)

theorem arc_base_abs (rm ad sp : ℚ) :
    |(arc_base_motors rm ad sp).1| ≤ 1 ∧ |(arc_base_motors rm ad sp).2| ≤ 1 := by
  have h1 := clampSpeed_lb_num sp
  have h2 := clampSpeed_ub_num sp
  have hs0 := arc_speed_scale_pos rm sp
  have hs1 := arc_speed_scale_le_one rm sp
  have hms : |clampSpeed sp * arc_speed_scale rm sp * pysign ad| ≤ 1 := by
    rw [abs_mul, abs_pysign, mul_one, abs_mul, abs_of_pos (clampSpeed_pos sp),
      abs_of_pos hs0]
    nlinarith
  have hmm : |clampSpeed sp * pysign ad| ≤ 1 := by
    rw [abs_mul, abs_pysign, mul_one, abs_of_pos (clampSpeed_pos sp)]
    linarith
  unfold arc_base_motors
  split_ifs with h
  · exact ⟨hms, hmm⟩
  · exact ⟨hmm, hms⟩

theorem arc_left_bounds (rm ad sp : ℚ) :
    -1 ≤ (arc_base_motors rm ad sp).1 + arc_offset_to_apply rm ad sp ∧
      (arc_base_motors rm ad sp).1 + arc_offset_to_apply rm ad sp ≤ 1 := by
  have h1 := clampSpeed_lb_num sp
  have h2 := clampSpeed_ub_num sp
  have hs0 := arc_speed_scale_pos rm sp
  have hs1 := arc_speed_scale_le_one rm sp
  have hb := arc_base_abs rm ad sp
  unfold arc_offset_to_apply
  rcases pysign_cases ad with h | h <;> rw [h]
  · rw [if_pos (by norm_num)]
    have hbl : 0 < (arc_base_motors rm ad sp).1 ∧ (arc_base_motors rm ad sp).1 ≤ 1 := by
      unfold arc_base_motors
      rw [h]
      split_ifs with hr
      · constructor
        · show (0:ℚ) < clampSpeed sp * arc_speed_scale rm sp * 1
          nlinarith [clampSpeed_pos sp]
        · show clampSpeed sp * arc_speed_scale rm sp * 1 ≤ 1
          nlinarith [clampSpeed_pos sp]
      · constructor
        · show (0:ℚ) < clampSpeed sp * 1
          nlinarith [clampSpeed_pos sp]
        · show clampSpeed sp * 1 ≤ 1
          linarith
    simp only [LEFT_MOTOR_OFFSET]
    split_ifs with ho
    · constructor <;> linarith [hbl.1, hbl.2]
    · constructor <;> linarith [hbl.1, hbl.2]
  · rw [if_neg (by norm_num)]
    have := abs_le.1 hb.1
    constructor <;> linarith [this.1, this.2]

/-- The secondary overflow-redistribution branch of move_arc
(controls.py 657-665) is unreachable. -/
theorem arc_motors_eq (rm ad sp : ℚ) :
    arc_motors rm ad sp = ((arc_base_motors rm ad sp).1 + arc_offset_to_apply rm ad sp,
      (arc_base_motors rm ad sp).2) := by
  obtain ⟨hl, hu⟩ := arc_left_bounds rm ad sp
  simp only [arc_motors]
  rw [if_neg (not_lt.2 hu), if_neg (not_lt.2 hl)]

theorem arc_left_abs (rm ad sp : ℚ) : |(arc_motors rm ad sp).1| ≤ 1 := by
  rw [arc_motors_eq]
  obtain ⟨hl, hu⟩ := arc_left_bounds rm ad sp
  exact abs_le.2 ⟨hl, hu⟩

theorem arc_right_abs (rm ad sp : ℚ) : |(arc_motors rm ad sp).2| ≤ 1 := by
  rw [arc_motors_eq]
  exact (arc_base_abs rm ad sp).2

theorem arc_base_left_abs (rm ad sp : ℚ) :
    |(arc_motors rm ad sp).1 - arc_offset_to_apply rm ad sp| ≤ 1 := by
  rw [arc_motors_eq]
  show |(arc_base_motors rm ad sp).1 + arc_offset_to_apply rm ad sp -
    arc_offset_to_apply rm ad sp| ≤ 1
  rw [add_sub_cancel_right]
  exact (arc_base_abs rm ad sp).1

/-! ## Bounds for rotate -/

theorem rotate_motors_abs (ad sp : ℚ) :
    |(rotate_motors ad sp).1| ≤ 1 ∧ |(rotate_motors ad sp).2| ≤ 1 := by
  have h2 := clampSpeed_ub_num sp
  have h0 := clampSpeed_pos sp
  have hm : |clampSpeed sp| ≤ 1 := by rw [abs_of_pos h0]; exact h2
  have hmn : |-(clampSpeed sp)| ≤ 1 := by rwa [abs_neg]
  unfold rotate_motors
  split_ifs with h
  · exact ⟨hm, hmn⟩
  · exact ⟨hmn, hm⟩

theorem report_fields (st : MStatus) (env : Env) (s : St) :
    ∀ r s', report st env s = (r, s') →
      s'.motors = s.motors ∧ s'.tripped = s.tripped ∧ s'.writes = s.writes ∧
      s'.sleeps = s.sleeps ∧ (r = none ∨ r.map MoveRes.status = some st) := by
  intro r s' h
  have h2 := report_state st env s
  have h3 := report_status st env s
  rw [h] at h2 h3
  simp only at h2 h3
  subst h2
  exact ⟨rfl, rfl, rfl, rfl, h3⟩

theorem min_sft_abs_le_one (x y : ℚ) :
    |min STATIC_FRICTION_THRESHOLD |x| * pysign y| ≤ 1 := by
  rw [abs_mul, abs_pysign, mul_one,
    abs_of_nonneg (le_min (by norm_num [STATIC_FRICTION_THRESHOLD]) (abs_nonneg x))]
  calc min STATIC_FRICTION_THRESHOLD |x| ≤ STATIC_FRICTION_THRESHOLD := min_le_left _ _
    _ ≤ 1 := by norm_num [STATIC_FRICTION_THRESHOLD]

/-- End-to-end invariant of move_distance: a run that newly trips the
interlock ends with both motors zeroed and (unless the final report read
raised) status safety; all motor writes are within MAX_MOTOR_VALUE; for a
forward run all constant-phase sleeps are within check_interval. -/
theorem move_distance_spec (env : Env) (d sp : ℚ) (s : St) :
    ∀ r s', move_distance env d sp s = (r, s') →
      ((s.tripped = false ∧ s'.tripped = true) →
        s'.motors = (0, 0) ∧ (r = none ∨ r.map MoveRes.status = some MStatus.safety)) ∧
      WritesExt s s' ∧ (0 < d → SleepExt s s') := by
  intro r s' h
  by_cases hd : d = 0
  · rw [move_distance, if_pos hd] at h
    obtain ⟨hm, ht, hw, hsl, _⟩ := report_fields _ env s r s' h
    refine ⟨fun hq => ?_, fun w hww => ?_, fun _ p hpp => ?_⟩
    · exfalso; rw [ht, hq.1] at hq; exact absurd hq.2 (by simp)
    · rw [hw] at hww; exact Or.inl hww
    · rw [hsl] at hpp; exact Or.inl hpp
  · rw [move_distance, if_neg hd] at h
    simp only at h
    rcases hc0 : (if decide (0 < pysign d) = true then check_ultrasonic_safety env s
        else ((true, none), s)) with ⟨⟨c0b, c0d⟩, c0s⟩
    obtain ⟨hc0T, hc0F, hc0W, hc0S⟩ := cond_check_spec env _ s c0b c0d c0s hc0
    rw [hc0] at h
    simp only at h
    cases c0b with
    | false =>
      rw [if_pos rfl] at h
      obtain ⟨ht0, hm0⟩ := hc0F rfl
      obtain ⟨hm, ht, hw, hsl, hst⟩ := report_fields _ env c0s r s' h
      refine ⟨fun _ => ⟨by rw [hm, hm0], hst⟩, ?_, fun _ => ?_⟩
      · intro w hww; rw [hw] at hww; exact hc0W w hww
      · intro p hpp; rw [hsl] at hpp; exact hc0S p hpp
    | true =>
      rw [if_neg (by simp)] at h
      obtain ⟨hc0t, _, _⟩ := hc0T rfl
      rcases ha1 : smooth_start env (md_motors d sp).1 (md_motors d sp).2
          (md_phase_times d sp).1 (md_offset_to_apply d sp) (decide (0 < pysign d)) c0s with
        ⟨a1b, a1s⟩
      obtain ⟨ha1T, ha1F, ha1W, ha1S⟩ := smooth_start_spec env _ _ _ _ _ c0s
        (md_base_abs d sp) (md_right_abs d sp) (md_left_abs d sp) a1b a1s ha1
      rw [ha1] at h
      simp only at h
      cases a1b with
      | false =>
        rw [if_pos rfl] at h
        obtain ⟨ht1, hm1⟩ := ha1F rfl
        obtain ⟨hm, ht, hw, hsl, hst⟩ := report_fields _ env a1s r s' h
        refine ⟨fun _ => ⟨by rw [hm, hm1], hst⟩, ?_, fun _ => ?_⟩
        · intro w hww; rw [hw] at hww
          exact writesExt_trans hc0W ha1W w hww
        · intro p hpp; rw [hsl] at hpp
          exact sleepExt_trans hc0S ha1S p hpp
      | true =>
        rw [if_neg (by simp)] at h
        have ha1t := ha1T rfl
        -- the constant-speed phase
        obtain ⟨c2b, c2s, hc2, hc2T, hc2F, hc2W, hc2S⟩ :
            ∃ c2b c2s, (if 0 < (md_phase_times d sp).2.2 then
              (if decide (0 < pysign d) = true then
                const_loop env (md_phase_times d sp).2.2
                  (const_fuel (md_phase_times d sp).2.2) 0 a1s
              else (true, sleepP Phase.constant (md_phase_times d sp).2.2 a1s))
            else (true, a1s)) = (c2b, c2s) ∧
            (c2b = true → c2s.tripped = a1s.tripped) ∧
            (c2b = false → c2s.tripped = true ∧ c2s.motors = (0, 0)) ∧
            WritesExt a1s c2s ∧ (0 < d → SleepExt a1s c2s) := by
          by_cases hcd : 0 < (md_phase_times d sp).2.2
          · rw [if_pos hcd]
            cases hfwd : decide (0 < pysign d) with
            | false =>
              simp only [Bool.false_eq_true, if_false]
              have hnd : ¬ 0 < d := by
                intro hdp
                rw [decide_eq_false_iff_not, pysign_pos_iff] at hfwd
                exact hfwd (le_of_lt hdp)
              exact ⟨true, sleepP Phase.constant (md_phase_times d sp).2.2 a1s, rfl,
                fun _ => sleepP_tripped _ _ _, fun hf => Bool.noConfusion hf,
                writesExt_sleepP a1s _ _, fun hdp => absurd hdp hnd⟩
            | true =>
              simp only [if_true]
              rcases hcl : const_loop env (md_phase_times d sp).2.2
                  (const_fuel (md_phase_times d sp).2.2) 0 a1s with ⟨clb, cls⟩
              obtain ⟨hT, hF, hW, hS⟩ :=
                const_loop_spec env ((md_phase_times d sp).2.2)
                  (const_fuel ((md_phase_times d sp).2.2)) 0 a1s clb cls hcl
              exact ⟨clb, cls, rfl, hT, hF, hW, fun _ => hS⟩
          · rw [if_neg hcd]
            exact ⟨true, a1s, rfl, fun _ => rfl, fun hf => Bool.noConfusion hf,
              writesExt_refl a1s, fun _ => sleepExt_refl a1s⟩
        rw [hc2] at h
        simp only at h
        cases c2b with
        | false =>
          rw [if_pos rfl] at h
          obtain ⟨ht2, hm2⟩ := hc2F rfl
          obtain ⟨hm, ht, hw, hsl, hst⟩ := report_fields _ env c2s r s' h
          refine ⟨fun _ => ⟨by rw [hm, hm2], hst⟩, ?_, fun hdp => ?_⟩
          · intro w hww; rw [hw] at hww
            exact writesExt_trans hc0W (writesExt_trans ha1W hc2W) w hww
          · intro p hpp; rw [hsl] at hpp
            exact sleepExt_trans hc0S (sleepExt_trans ha1S (hc2S hdp)) p hpp
        | true =>
          rw [if_neg (by simp)] at h
          have hc2t := hc2T rfl
          rcases hd3 : smooth_stop env (md_motors d sp).1 (md_motors d sp).2
              (md_phase_times d sp).2.1 (decide (0 < pysign d)) c2s with ⟨⟨d3b, d3d⟩, d3s⟩
          obtain ⟨hd3T, hd3F, hd3W, hd3S⟩ := smooth_stop_spec env _ _ _ _ c2s
            (md_left_abs d sp) (md_right_abs d sp) d3b d3d d3s hd3
          rw [hd3] at h
          simp only at h
          cases d3b with
          | false =>
            rw [if_pos rfl] at h
            obtain ⟨hr, hs'⟩ := Prod.mk.injEq .. ▸ h
            subst hs'
            obtain ⟨ht3, hm3⟩ := hd3F rfl
            refine ⟨fun _ => ⟨hm3, Or.inr (by rw [← hr]; rfl)⟩, ?_, fun hdp => ?_⟩
            · exact writesExt_trans hc0W (writesExt_trans ha1W (writesExt_trans hc2W hd3W))
            · exact sleepExt_trans hc0S (sleepExt_trans ha1S
                (sleepExt_trans (hc2S hdp) hd3S))
          | true =>
            rw [if_neg (by simp)] at h
            have hd3t := hd3T rfl
            obtain ⟨hm, ht, hw, hsl, hst⟩ := report_fields _ env d3s r s' h
            refine ⟨fun hq => ?_, ?_, fun hdp => ?_⟩
            · exfalso
              rw [ht, hd3t, hc2t, ha1t, hc0t, hq.1] at hq
              exact absurd hq.2 (by simp)
            · intro w hww; rw [hw] at hww
              exact writesExt_trans hc0W (writesExt_trans ha1W
                (writesExt_trans hc2W hd3W)) w hww
            · intro p hpp; rw [hsl] at hpp
              exact sleepExt_trans hc0S (sleepExt_trans ha1S
                (sleepExt_trans (hc2S hdp) hd3S)) p hpp

theorem smooth_stop_writesExt (env : Env) (lms rms dt : ℚ) (check : Bool) (s : St)
    (h1 : |lms| ≤ 1) (h2 : |rms| ≤ 1) :
    WritesExt s (smooth_stop env lms rms dt check s).2 := by
  rcases hh : smooth_stop env lms rms dt check s with ⟨⟨b, dd⟩, s2⟩
  obtain ⟨_, _, hW, _⟩ := smooth_stop_spec env lms rms dt check s h1 h2 b dd s2 hh
  simpa [hh] using hW

/-- All motor writes of rotate are within MAX_MOTOR_VALUE. -/
theorem rotate_spec (env : Env) (ad sp rad : ℚ) (s : St) :
    ∀ r s', rotate env ad sp rad s = (r, s') → WritesExt s s' := by
  intro r s' h
  by_cases had : ad = 0
  · rw [rotate, if_pos had] at h
    obtain ⟨_, _, hw, _, _⟩ := report_fields _ env s r s' h
    intro w hww; rw [hw] at hww; exact Or.inl hww
  · rw [rotate, if_neg had] at h
    simp only at h
    obtain ⟨_, _, hw, _, _⟩ := report_fields _ env _ r s' h
    intro w hww
    rw [hw] at hww
    refine writesExt_trans ?_ (smooth_stop_writesExt env _ _ _ false _
      (rotate_motors_abs ad sp).1 (rotate_motors_abs ad sp).2) w hww
    have hinner : WritesExt s (writeM (rotate_motors ad sp).1 (rotate_motors ad sp).2
        (sleepP Phase.other (1/20)
          (writeM (min STATIC_FRICTION_THRESHOLD |clampSpeed sp| * pysign (rotate_motors ad sp).1)
            (min STATIC_FRICTION_THRESHOLD |clampSpeed sp| * pysign (rotate_motors ad sp).2) s))) := by
      refine writesExt_trans (writesExt_trans
        (writesExt_writeM s (min_sft_abs_le_one _ _) (min_sft_abs_le_one _ _))
        (writesExt_sleepP _ _ _))
        (writesExt_writeM _ (rotate_motors_abs ad sp).1 (rotate_motors_abs ad sp).2)
    split
    · exact writesExt_trans hinner (writesExt_sleepP _ _ _)
    · exact hinner


/-- End-to-end invariant of move_arc, mirroring move_distance_spec. -/
theorem move_arc_spec (env : Env) (rm ad sp rad : ℚ) (s : St) :
    ∀ r s', move_arc env rm ad sp rad s = (r, s') →
      ((s.tripped = false ∧ s'.tripped = true) →
        s'.motors = (0, 0) ∧ (r = none ∨ r.map MoveRes.status = some MStatus.safety)) ∧
      WritesExt s s' ∧ (0 < ad → SleepExt s s') := by
  intro r s' h
  by_cases hv : ad = 0 ∨ rm = 0
  · rw [move_arc, if_pos hv] at h
    obtain ⟨hm, ht, hw, hsl, _⟩ := report_fields _ env s r s' h
    refine ⟨fun hq => ?_, fun w hww => ?_, fun _ p hpp => ?_⟩
    · exfalso; rw [ht, hq.1] at hq; exact absurd hq.2 (by simp)
    · rw [hw] at hww; exact Or.inl hww
    · rw [hsl] at hpp; exact Or.inl hpp
  · rw [move_arc, if_neg hv] at h
    simp only at h
    rcases hc0 : (if decide (0 < pysign ad) = true then check_ultrasonic_safety env s
        else ((true, none), s)) with ⟨⟨c0b, c0d⟩, c0s⟩
    obtain ⟨hc0T, hc0F, hc0W, hc0S⟩ := cond_check_spec env _ s c0b c0d c0s hc0
    rw [hc0] at h
    simp only at h
    cases c0b with
    | false =>
      rw [if_pos rfl] at h
      obtain ⟨ht0, hm0⟩ := hc0F rfl
      obtain ⟨hm, ht, hw, hsl, hst⟩ := report_fields _ env c0s r s' h
      refine ⟨fun _ => ⟨by rw [hm, hm0], hst⟩, ?_, fun _ => ?_⟩
      · intro w hww; rw [hw] at hww; exact hc0W w hww
      · intro p hpp; rw [hsl] at hpp; exact hc0S p hpp
    | true =>
      rw [if_neg (by simp)] at h
      obtain ⟨hc0t, _, _⟩ := hc0T rfl
      set s1 : St := writeM
        (min STATIC_FRICTION_THRESHOLD |(arc_motors rm ad sp).1| * pysign (arc_motors rm ad sp).1)
        (min STATIC_FRICTION_THRESHOLD |(arc_motors rm ad sp).2| * pysign (arc_motors rm ad sp).2)
        c0s with hs1
      have hs1W : WritesExt c0s s1 := by
        rw [hs1]
        exact writesExt_writeM c0s (min_sft_abs_le_one _ _) (min_sft_abs_le_one _ _)
      rcases hc1 : (if decide (0 < pysign ad) = true then check_ultrasonic_safety env s1
          else ((true, none), s1)) with ⟨⟨c1b, c1d⟩, c1s⟩
      obtain ⟨hc1T, hc1F, hc1W, hc1S⟩ := cond_check_spec env _ s1 c1b c1d c1s hc1
      rw [hc1] at h
      simp only at h
      cases c1b with
      | false =>
        rw [if_pos rfl] at h
        obtain ⟨ht1, hm1⟩ := hc1F rfl
        obtain ⟨hm, ht, hw, hsl, hst⟩ := report_fields _ env c1s r s' h
        refine ⟨fun _ => ⟨by rw [hm, hm1], hst⟩, ?_, fun _ => ?_⟩
        · intro w hww; rw [hw] at hww
          exact writesExt_trans hc0W (writesExt_trans hs1W hc1W) w hww
        · intro p hpp; rw [hsl] at hpp
          exact sleepExt_trans hc0S (sleepExt_trans (by rw [hs1]; exact sleepExt_writeM c0s _ _) hc1S) p hpp
      | true =>
        rw [if_neg (by simp)] at h
        obtain ⟨hc1t, _, _⟩ := hc1T rfl
        have hs2S : SleepExt c1s (sleepP Phase.other (1/20) c1s) :=
          sleepExt_sleepP c1s (Or.inl (fun hx => Phase.noConfusion hx))
        rcases hc2 : (if decide (0 < pysign ad) = true then
            check_ultrasonic_safety env (sleepP Phase.other (1/20) c1s)
          else ((true, none), sleepP Phase.other (1/20) c1s)) with ⟨⟨c2b, c2d⟩, c2s⟩
        obtain ⟨hc2T, hc2F, hc2W, hc2S⟩ := cond_check_spec env _ _ c2b c2d c2s hc2
        rw [hc2] at h
        simp only at h
        have hW2 : WritesExt s c2s :=
          writesExt_trans hc0W (writesExt_trans hs1W (writesExt_trans hc1W
            (writesExt_trans (writesExt_sleepP c1s _ _) hc2W)))
        have hS2 : SleepExt s c2s :=
          sleepExt_trans hc0S (sleepExt_trans (by rw [hs1]; exact sleepExt_writeM c0s _ _)
            (sleepExt_trans hc1S (sleepExt_trans hs2S hc2S)))
        cases c2b with
        | false =>
          rw [if_pos rfl] at h
          obtain ⟨ht2, hm2⟩ := hc2F rfl
          obtain ⟨hm, ht, hw, hsl, hst⟩ := report_fields _ env c2s r s' h
          refine ⟨fun _ => ⟨by rw [hm, hm2], hst⟩, ?_, fun _ => ?_⟩
          · intro w hww; rw [hw] at hww; exact hW2 w hww
          · intro p hpp; rw [hsl] at hpp; exact hS2 p hpp
        | true =>
          rw [if_neg (by simp)] at h
          obtain ⟨hc2t, _, _⟩ := hc2T rfl
          have hs3W : WritesExt c2s (writeM (arc_motors rm ad sp).1 (arc_motors rm ad sp).2 c2s) :=
            writesExt_writeM c2s (arc_left_abs rm ad sp) (arc_right_abs rm ad sp)
          rcases hc3 : (if decide (0 < pysign ad) = true then
              check_ultrasonic_safety env (writeM (arc_motors rm ad sp).1 (arc_motors rm ad sp).2 c2s)
            else ((true, none), writeM (arc_motors rm ad sp).1 (arc_motors rm ad sp).2 c2s)) with
            ⟨⟨c3b, c3d⟩, c3s⟩
          obtain ⟨hc3T, hc3F, hc3W, hc3S⟩ := cond_check_spec env _ _ c3b c3d c3s hc3
          rw [hc3] at h
          simp only at h
          have hW3 : WritesExt s c3s :=
            writesExt_trans hW2 (writesExt_trans hs3W hc3W)
          have hS3 : SleepExt s c3s :=
            sleepExt_trans hS2 (sleepExt_trans (sleepExt_writeM c2s _ _) hc3S)
          cases c3b with
          | false =>
            rw [if_pos rfl] at h
            obtain ⟨ht3, hm3⟩ := hc3F rfl
            obtain ⟨hm, ht, hw, hsl, hst⟩ := report_fields _ env c3s r s' h
            refine ⟨fun _ => ⟨by rw [hm, hm3], hst⟩, ?_, fun _ => ?_⟩
            · intro w hww; rw [hw] at hww; exact hW3 w hww
            · intro p hpp; rw [hsl] at hpp; exact hS3 p hpp
          | true =>
            rw [if_neg (by simp)] at h
            obtain ⟨hc3t, _, _⟩ := hc3T rfl
            obtain ⟨c4b, c4s, hc4, hc4T, hc4F, hc4W, hc4S⟩ :
                ∃ c4b c4s, (if 0 < (arc_phase_times rm sp rad).1 then
                  (if decide (0 < pysign ad) = true then
                    const_loop env (arc_phase_times rm sp rad).1
                      (const_fuel (arc_phase_times rm sp rad).1) 0 c3s
                  else (true, sleepP Phase.constant (arc_phase_times rm sp rad).1 c3s))
                else (true, c3s)) = (c4b, c4s) ∧
                (c4b = true → c4s.tripped = c3s.tripped) ∧
                (c4b = false → c4s.tripped = true ∧ c4s.motors = (0, 0)) ∧
                WritesExt c3s c4s ∧ (0 < ad → SleepExt c3s c4s) := by
              by_cases hcd : 0 < (arc_phase_times rm sp rad).1
              · rw [if_pos hcd]
                cases hfwd : decide (0 < pysign ad) with
                | false =>
                  simp only [Bool.false_eq_true, if_false]
                  have hnd : ¬ 0 < ad := by
                    intro hdp
                    rw [decide_eq_false_iff_not, pysign_pos_iff] at hfwd
                    exact hfwd (le_of_lt hdp)
                  exact ⟨true, sleepP Phase.constant (arc_phase_times rm sp rad).1 c3s, rfl,
                    fun _ => sleepP_tripped _ _ _, fun hf => Bool.noConfusion hf,
                    writesExt_sleepP c3s _ _, fun hdp => absurd hdp hnd⟩
                | true =>
                  simp only [if_true]
                  rcases hcl : const_loop env (arc_phase_times rm sp rad).1
                      (const_fuel (arc_phase_times rm sp rad).1) 0 c3s with ⟨clb, cls⟩
                  obtain ⟨hT, hF, hW, hS⟩ :=
                    const_loop_spec env ((arc_phase_times rm sp rad).1)
                      (const_fuel ((arc_phase_times rm sp rad).1)) 0 c3s clb cls hcl
                  exact ⟨clb, cls, rfl, hT, hF, hW, fun _ => hS⟩
              · rw [if_neg hcd]
                exact ⟨true, c3s, rfl, fun _ => rfl, fun hf => Bool.noConfusion hf,
                  writesExt_refl c3s, fun _ => sleepExt_refl c3s⟩
            rw [hc4] at h
            simp only at h
            cases c4b with
            | false =>
              rw [if_pos rfl] at h
              obtain ⟨ht4, hm4⟩ := hc4F rfl
              obtain ⟨hm, ht, hw, hsl, hst⟩ := report_fields _ env c4s r s' h
              refine ⟨fun _ => ⟨by rw [hm, hm4], hst⟩, ?_, fun hdp => ?_⟩
              · intro w hww; rw [hw] at hww
                exact writesExt_trans hW3 hc4W w hww
              · intro p hpp; rw [hsl] at hpp
                exact sleepExt_trans hS3 (hc4S hdp) p hpp
            | true =>
              rw [if_neg (by simp)] at h
              have hc4t := hc4T rfl
              rcases hd5 : smooth_stop env (arc_motors rm ad sp).1 (arc_motors rm ad sp).2
                  (arc_phase_times rm sp rad).2 (decide (0 < pysign ad)) c4s with ⟨⟨d5b, d5d⟩, d5s⟩
              obtain ⟨hd5T, hd5F, hd5W, hd5S⟩ := smooth_stop_spec env _ _ _ _ c4s
                (arc_left_abs rm ad sp) (arc_right_abs rm ad sp) d5b d5d d5s hd5
              rw [hd5] at h
              simp only at h
              cases d5b with
              | false =>
                rw [if_pos rfl] at h
                obtain ⟨hr, hs'⟩ := Prod.mk.injEq .. ▸ h
                subst hs'
                obtain ⟨ht5, hm5⟩ := hd5F rfl
                refine ⟨fun _ => ⟨hm5, Or.inr (by rw [← hr]; rfl)⟩, ?_, fun hdp => ?_⟩
                · exact writesExt_trans hW3 (writesExt_trans hc4W hd5W)
                · exact sleepExt_trans hS3 (sleepExt_trans (hc4S hdp) hd5S)
              | true =>
                rw [if_neg (by simp)] at h
                have hd5t := hd5T rfl
                obtain ⟨hm, ht, hw, hsl, hst⟩ := report_fields _ env d5s r s' h
                refine ⟨fun hq => ?_, ?_, fun hdp => ?_⟩
                · exfalso
                  have hts : s'.tripped = s.tripped := by
                    simp only [ht, hd5t, hc4t, hc3t, hc2t, hc1t, hs1, writeM_tripped,
                      sleepP_tripped, hc0t]
                  rw [hts, hq.1] at hq
                  exact absurd hq.2 (by simp)
                · intro w hww; rw [hw] at hww
                  exact writesExt_trans hW3 (writesExt_trans hc4W hd5W) w hww
                · intro p hpp; rw [hsl] at hpp
                  exact sleepExt_trans hS3 (sleepExt_trans (hc4S hdp) hd5S) p hpp

/-! ## Sweep lemmas for rotate_until_object_center -/

theorem sweep_not_found (ve : VisionEnv) (items : List String) (th : ℚ) :
    ∀ rem i total, (∀ j, j < rem → frame_hit ve items th (i + 1 + j) = none) →
      sweep ve items th i rem total =
        ⟨.not_found, total + (rem : ℚ) * increment_degrees, none, none⟩ := by
  intro rem
  induction rem with
  | zero =>
    intro i total _
    rw [sweep]
    norm_num
  | succ n ihn =>
    intro i total hmiss
    rw [sweep]
    have h0 : frame_hit ve items th (i + 1) = none := by
      have := hmiss 0 (Nat.succ_pos n)
      simpa using this
    simp only [h0]
    have hrest : ∀ j, j < n → frame_hit ve items th (i + 1 + 1 + j) = none := by
      intro j hj
      have := hmiss (j + 1) (Nat.succ_lt_succ hj)
      rwa [show i + 1 + (j + 1) = i + 1 + 1 + j by omega] at this
    rw [ihn (i + 1) (total + increment_degrees) hrest]
    congr 1
    push_cast
    ring

theorem sweep_found (ve : VisionEnv) (items : List String) (th : ℚ) :
    ∀ rem m i total det, m < rem →
      (∀ j, j < m → frame_hit ve items th (i + 1 + j) = none) →
      frame_hit ve items th (i + 1 + m) = some det →
      sweep ve items th i rem total =
        ⟨.found, total + ((m : ℚ) + 1) * increment_degrees, some det.class_name,
          some (center_dist det)⟩ := by
  intro rem
  induction rem with
  | zero =>
    intro m i total det hm
    exact absurd hm (Nat.not_lt_zero m)
  | succ n ihn =>
    intro m i total det hm hmiss hhit
    rw [sweep]
    cases m with
    | zero =>
      have h0 : frame_hit ve items th (i + 1) = some det := by simpa using hhit
      simp only [h0]
      congr 1
      push_cast
      ring
    | succ k =>
      have h0 : frame_hit ve items th (i + 1) = none := by
        have := hmiss 0 (Nat.succ_pos k)
        simpa using this
      simp only [h0]
      have hrest : ∀ j, j < k → frame_hit ve items th (i + 1 + 1 + j) = none := by
        intro j hj
        have := hmiss (j + 1) (Nat.succ_lt_succ hj)
        rwa [show i + 1 + (j + 1) = i + 1 + 1 + j by omega] at this
      have hhit2 : frame_hit ve items th (i + 1 + 1 + k) = some det := by
        rwa [show i + 1 + (k + 1) = i + 1 + 1 + k by omega] at hhit
      rw [ihn k (i + 1) (total + increment_degrees) det (Nat.lt_of_succ_lt_succ hm)
        hrest hhit2]
      congr 1
      push_cast
      ring

/-! ## Prep lemmas for the claim theorems -/

theorem md_duration_nonneg (d sp : ℚ) : 0 ≤ md_duration d sp := by
  unfold md_duration
  apply div_nonneg (abs_nonneg d)
  have h1 := clampSpeed_pos sp
  have h2 : (0 : ℚ) < MOTOR_SPEED_FACTOR := by norm_num [MOTOR_SPEED_FACTOR]
  positivity

theorem md_phase_times_eq (d sp : ℚ) :
    md_phase_times d sp =
      (md_duration d sp * (1/4), md_duration d sp * (1/4), md_duration d sp * (3/4)) := by
  have h := md_duration_nonneg d sp
  simp only [md_phase_times, ACCEL_DECEL_FRACTION]
  rw [if_neg (by push_neg; linarith)]
  simp only [Prod.mk.injEq]
  refine ⟨by ring, by ring, by ring⟩

theorem clampSpeed_eq_self {sp : ℚ} (h1 : 3/10 ≤ sp) (h2 : sp ≤ 1) : clampSpeed sp = sp := by
  unfold clampSpeed
  simp only [MIN_MOTOR_VALUE, MAX_MOTOR_VALUE]
  rw [abs_of_nonneg (by linarith), min_eq_left h2, max_eq_right h1]

theorem clampSpeed_neg (sp : ℚ) : clampSpeed (-sp) = clampSpeed sp := by
  unfold clampSpeed
  rw [abs_neg]

theorem arc_radius_abs_of_lt {rm : ℚ} (h : |rm| < WHEELBASE_M / 2) :
    arc_radius_abs rm = WHEELBASE_M / 2 := by
  simp [arc_radius_abs, h]

theorem arc_radius_abs_of_ge {rm : ℚ} (h : ¬ |rm| < WHEELBASE_M / 2) :
    arc_radius_abs rm = |rm| := by
  simp [arc_radius_abs, h]

theorem arc_base_pos_radius {rm : ℚ} (ad sp : ℚ) (h : 0 < rm) :
    arc_base_motors rm ad sp = (clampSpeed sp * arc_speed_scale rm sp * pysign ad,
      clampSpeed sp * pysign ad) := by
  unfold arc_base_motors
  rw [if_pos h]

theorem arc_base_nonpos_radius {rm : ℚ} (ad sp : ℚ) (h : ¬ 0 < rm) :
    arc_base_motors rm ad sp = (clampSpeed sp * pysign ad,
      clampSpeed sp * arc_speed_scale rm sp * pysign ad) := by
  unfold arc_base_motors
  rw [if_neg h]

/-- The ratio formula of arc_speed_scale expressed via the raw (unfloored)
radius: the MIN_MOTOR_VALUE/speed floor masks the radius flooring. -/
theorem arc_speed_scale_formula (rm sp : ℚ) :
    arc_speed_scale rm sp = max (MIN_MOTOR_VALUE / clampSpeed sp)
      ((|rm| - WHEELBASE_M / 2) / (|rm| + WHEELBASE_M / 2)) := by
  have hm0 : (0 : ℚ) < MIN_MOTOR_VALUE / clampSpeed sp := by
    apply div_pos _ (clampSpeed_pos sp)
    norm_num [MIN_MOTOR_VALUE]
  simp only [arc_speed_scale]
  rw [if_pos (arc_outer_pos rm)]
  by_cases hlt : |rm| < WHEELBASE_M / 2
  · have hra := arc_radius_abs_of_lt hlt
    have hI : arc_inner_radius rm = 0 := by
      unfold arc_inner_radius
      rw [hra]; ring
    have hraw : (|rm| - WHEELBASE_M / 2) / (|rm| + WHEELBASE_M / 2) ≤ 0 := by
      apply div_nonpos_iff.mpr
      apply Or.inr
      constructor
      · linarith
      · have := abs_nonneg rm
        simp only [WHEELBASE_M] at *
        linarith
    rw [hI, zero_div, if_pos hm0]
    exact (max_eq_left (le_trans hraw (le_of_lt hm0))).symm
  · have hra := arc_radius_abs_of_ge hlt
    have hinout : arc_inner_radius rm / arc_outer_radius rm =
        (|rm| - WHEELBASE_M / 2) / (|rm| + WHEELBASE_M / 2) := by
      unfold arc_inner_radius arc_outer_radius
      rw [hra]
    rw [hinout]
    split_ifs with h
    · exact (max_eq_left (le_of_lt h)).symm
    · exact (max_eq_right (not_lt.1 h)).symm

/-! # Claim theorems -/

/-- Claim C1: for every forward motion (move_distance with distance_m > 0,
or move_arc in the forward direction), if any ultrasonic distance sampled at
a check point in any phase is below ULTRASONIC_SAFETY_THRESHOLD_M (the run's
trip flag is set), the call returns status safety and both motor outputs are
zero on return.  A `none` result covers only the case where the driver
raises at the post-stop final report read, so the Python call propagates
that exception instead of returning; the motors are still zeroed. -/
theorem C1_forward_safety_abort (env1 env2 : Env) (d sp1 rm ad sp2 rad : ℚ)
    (hd : 0 < d) (ha : 0 < ad)
    (h1 : (move_distance env1 d sp1 St.init).2.tripped = true)
    (h2 : (move_arc env2 rm ad sp2 rad St.init).2.tripped = true) :
    ((move_distance env1 d sp1 St.init).2.motors = (0, 0) ∧
      ((move_distance env1 d sp1 St.init).1 = none ∨
        (move_distance env1 d sp1 St.init).1.map MoveRes.status = some MStatus.safety)) ∧
    ((move_arc env2 rm ad sp2 rad St.init).2.motors = (0, 0) ∧
      ((move_arc env2 rm ad sp2 rad St.init).1 = none ∨
        (move_arc env2 rm ad sp2 rad St.init).1.map MoveRes.status = some MStatus.safety)) := by
  constructor
  · rcases hh : move_distance env1 d sp1 St.init with ⟨r, s'⟩
    obtain ⟨hT, _, _⟩ := move_distance_spec env1 d sp1 St.init r s' hh
    rw [hh] at h1
    simp only at h1
    exact hT ⟨rfl, h1⟩
  · rcases hh : move_arc env2 rm ad sp2 rad St.init with ⟨r, s'⟩
    obtain ⟨hT, _, _⟩ := move_arc_spec env2 rm ad sp2 rad St.init r s' hh
    rw [hh] at h2
    simp only at h2
    exact hT ⟨rfl, h2⟩

theorem C1_forward_safety_abort_witness :
    ((move_distance envTrip 1 (1/2) St.init).2.motors = (0, 0) ∧
      ((move_distance envTrip 1 (1/2) St.init).1 = none ∨
        (move_distance envTrip 1 (1/2) St.init).1.map MoveRes.status = some MStatus.safety)) ∧
    ((move_arc envTrip (1/4) 90 (1/2) (157/100) St.init).2.motors = (0, 0) ∧
      ((move_arc envTrip (1/4) 90 (1/2) (157/100) St.init).1 = none ∨
        (move_arc envTrip (1/4) 90 (1/2) (157/100) St.init).1.map MoveRes.status =
          some MStatus.safety)) :=
  C1_forward_safety_abort envTrip envTrip 1 (1/2) (1/4) 90 (1/2) (157/100)
    (by norm_num) (by norm_num) (by with_unfolding_all rfl) (by with_unfolding_all rfl)

/-- Claim C2 (amended): for distance_m in [-10,10] excluding 0 and speed in
[0.3,1.0], move_distance computes duration = |distance_m| / (speed x
MOTOR_SPEED_FACTOR) and sets acceleration and deceleration times to 25% of
that duration each; the constant phase is duration minus HALF of each ramp,
i.e. 75% of the duration (the renormalization branch for short movements
never triggers), so the three phase durations sum to 125% of the total
duration, while the ramp-halved sum accel/2 + constant + decel/2 equals the
total duration exactly. -/
theorem C2_phase_times (d sp : ℚ) (hd : d ≠ 0) (h1 : -10 ≤ d) (h2 : d ≤ 10)
    (h3 : 3/10 ≤ sp) (h4 : sp ≤ 1) :
    md_duration d sp = |d| / (sp * MOTOR_SPEED_FACTOR) ∧
    (md_phase_times d sp).1 = md_duration d sp * (1/4) ∧
    (md_phase_times d sp).2.1 = md_duration d sp * (1/4) ∧
    (md_phase_times d sp).2.2 = md_duration d sp * (3/4) ∧
    (md_phase_times d sp).1 + (md_phase_times d sp).2.2 + (md_phase_times d sp).2.1 =
      md_duration d sp * (5/4) ∧
    (md_phase_times d sp).1 * (1/2) + (md_phase_times d sp).2.2 +
      (md_phase_times d sp).2.1 * (1/2) = md_duration d sp := by
  rw [md_phase_times_eq]
  refine ⟨?_, rfl, rfl, rfl, by ring, by ring⟩
  unfold md_duration
  rw [clampSpeed_eq_self h3 h4]

theorem C2_phase_times_witness :
    md_duration 1 (1/2) = |(1 : ℚ)| / ((1/2) * MOTOR_SPEED_FACTOR) ∧
    (md_phase_times 1 (1/2)).1 = md_duration 1 (1/2) * (1/4) ∧
    (md_phase_times 1 (1/2)).2.1 = md_duration 1 (1/2) * (1/4) ∧
    (md_phase_times 1 (1/2)).2.2 = md_duration 1 (1/2) * (3/4) ∧
    (md_phase_times 1 (1/2)).1 + (md_phase_times 1 (1/2)).2.2 + (md_phase_times 1 (1/2)).2.1 =
      md_duration 1 (1/2) * (5/4) ∧
    (md_phase_times 1 (1/2)).1 * (1/2) + (md_phase_times 1 (1/2)).2.2 +
      (md_phase_times 1 (1/2)).2.1 * (1/2) = md_duration 1 (1/2) :=
  C2_phase_times 1 (1/2) (by norm_num) (by norm_num) (by norm_num) (by norm_num) (by norm_num)

/-- Claim C2 as stated is false: at move_distance(1.0, 0.5) the three phase
durations do not sum to the total duration (they sum to 1.25 times it). -/
theorem C2_cex :
    (md_phase_times 1 (1/2)).1 + (md_phase_times 1 (1/2)).2.2 + (md_phase_times 1 (1/2)).2.1 ≠
      md_duration 1 (1/2) := of_decide_eq_true (by with_unfolding_all rfl)

/-- Claim C7: every zero-magnitude request (move_distance with distance 0,
rotate with angle 0, move_arc with radius 0 or angle 0) returns status
invalid_movement (unless the single report read raises) and issues no motor
command, leaving the motors unchanged. -/
theorem C7_invalid_movement (env1 env2 env3 : Env) (sp1 sp2 sp3 rad2 rad3 rm ad : ℚ)
    (s1 s2 s3 : St) (harc : rm = 0 ∨ ad = 0) :
    ((move_distance env1 0 sp1 s1).2.motors = s1.motors ∧
      (move_distance env1 0 sp1 s1).2.writes = s1.writes ∧
      ((move_distance env1 0 sp1 s1).1 = none ∨
        (move_distance env1 0 sp1 s1).1.map MoveRes.status = some MStatus.invalid_movement)) ∧
    ((rotate env2 0 sp2 rad2 s2).2.motors = s2.motors ∧
      (rotate env2 0 sp2 rad2 s2).2.writes = s2.writes ∧
      ((rotate env2 0 sp2 rad2 s2).1 = none ∨
        (rotate env2 0 sp2 rad2 s2).1.map MoveRes.status = some MStatus.invalid_movement)) ∧
    ((move_arc env3 rm ad sp3 rad3 s3).2.motors = s3.motors ∧
      (move_arc env3 rm ad sp3 rad3 s3).2.writes = s3.writes ∧
      ((move_arc env3 rm ad sp3 rad3 s3).1 = none ∨
        (move_arc env3 rm ad sp3 rad3 s3).1.map MoveRes.status =
          some MStatus.invalid_movement)) := by
  refine ⟨?_, ?_, ?_⟩
  · rcases hh : move_distance env1 0 sp1 s1 with ⟨r, s'⟩
    rw [move_distance, if_pos rfl] at hh
    obtain ⟨hm, _, hw, _, hst⟩ := report_fields _ env1 s1 r s' hh
    exact ⟨hm, hw, hst⟩
  · rcases hh : rotate env2 0 sp2 rad2 s2 with ⟨r, s'⟩
    rw [rotate, if_pos rfl] at hh
    obtain ⟨hm, _, hw, _, hst⟩ := report_fields _ env2 s2 r s' hh
    exact ⟨hm, hw, hst⟩
  · rcases hh : move_arc env3 rm ad sp3 rad3 s3 with ⟨r, s'⟩
    rw [move_arc, if_pos (Or.symm harc)] at hh
    obtain ⟨hm, _, hw, _, hst⟩ := report_fields _ env3 s3 r s' hh
    exact ⟨hm, hw, hst⟩

theorem C7_invalid_movement_witness :
    ((move_distance envSafe 0 (1/2) St.init).2.motors = St.init.motors ∧
      (move_distance envSafe 0 (1/2) St.init).2.writes = St.init.writes ∧
      ((move_distance envSafe 0 (1/2) St.init).1 = none ∨
        (move_distance envSafe 0 (1/2) St.init).1.map MoveRes.status =
          some MStatus.invalid_movement)) ∧
    ((rotate envSafe 0 (2/5) (157/100) St.init).2.motors = St.init.motors ∧
      (rotate envSafe 0 (2/5) (157/100) St.init).2.writes = St.init.writes ∧
      ((rotate envSafe 0 (2/5) (157/100) St.init).1 = none ∨
        (rotate envSafe 0 (2/5) (157/100) St.init).1.map MoveRes.status =
          some MStatus.invalid_movement)) ∧
    ((move_arc envSafe 0 90 (1/2) (157/100) St.init).2.motors = St.init.motors ∧
      (move_arc envSafe 0 90 (1/2) (157/100) St.init).2.writes = St.init.writes ∧
      ((move_arc envSafe 0 90 (1/2) (157/100) St.init).1 = none ∨
        (move_arc envSafe 0 90 (1/2) (157/100) St.init).1.map MoveRes.status =
          some MStatus.invalid_movement)) :=
  C7_invalid_movement envSafe envSafe envSafe (1/2) (2/5) (1/2) (157/100) (157/100) 0 90
    St.init St.init St.init (Or.inl rfl)

/-- Claim C3 (amended): during every operation (move_distance, rotate,
move_arc, including the acceleration and deceleration ramps), each wheel
value written to a motor has magnitude at most MAX_MOTOR_VALUE, and the
clamped speed target lies in [MIN_MOTOR_VALUE, MAX_MOTOR_VALUE]; the
original claim's lower bound fails because deceleration-ramp steps command
magnitudes strictly between 0 and MIN_MOTOR_VALUE (see the
counterexample). -/
theorem C3_write_bounds (env1 env2 env3 : Env) (a sp1 rad1 d sp2 rm ad sp3 rad3 : ℚ)
    (ha0 : a ≠ 0) (ha1 : -720 ≤ a) (ha2 : a ≤ 720) :
    writesOK (rotate env1 a sp1 rad1 St.init).2 = true ∧
    MIN_MOTOR_VALUE ≤ clampSpeed sp1 ∧ clampSpeed sp1 ≤ MAX_MOTOR_VALUE ∧
    writesOK (move_distance env2 d sp2 St.init).2 = true ∧
    writesOK (move_arc env3 rm ad sp3 rad3 St.init).2 = true := by
  refine ⟨?_, clampSpeed_lb sp1, clampSpeed_ub sp1, ?_, ?_⟩
  · rcases hh : rotate env1 a sp1 rad1 St.init with ⟨r, s'⟩
    exact writesOK_of_ext (rotate_spec env1 a sp1 rad1 St.init r s' hh)
  · rcases hh : move_distance env2 d sp2 St.init with ⟨r, s'⟩
    obtain ⟨_, hW, _⟩ := move_distance_spec env2 d sp2 St.init r s' hh
    exact writesOK_of_ext hW
  · rcases hh : move_arc env3 rm ad sp3 rad3 St.init with ⟨r, s'⟩
    obtain ⟨_, hW, _⟩ := move_arc_spec env3 rm ad sp3 rad3 St.init r s' hh
    exact writesOK_of_ext hW

theorem C3_write_bounds_witness :
    writesOK (rotate envSafe 90 (2/5) (157/100) St.init).2 = true ∧
    MIN_MOTOR_VALUE ≤ clampSpeed (2/5) ∧ clampSpeed (2/5) ≤ MAX_MOTOR_VALUE ∧
    writesOK (move_distance envSafe 1 (1/2) St.init).2 = true ∧
    writesOK (move_arc envSafe (1/4) 90 (1/2) (157/100) St.init).2 = true :=
  C3_write_bounds envSafe envSafe envSafe 90 (2/5) (157/100) 1 (1/2) (1/4) 90 (1/2) (157/100)
    (by norm_num) (by norm_num) (by norm_num)

/-- Claim C3 as stated is false: rotate(90, 0.4) writes wheel values whose
magnitude is strictly between 0 and MIN_MOTOR_VALUE during the
deceleration ramp (e.g. 0.24). -/
theorem C3_cex :
    ((rotate envSafe 90 (2/5) (157/100) St.init).2.writes.any
      (fun w => decide (0 < |w.1|) && decide (|w.1| < MIN_MOTOR_VALUE))) = true := by
  with_unfolding_all rfl

/-- Claim C5 (amended): in move_distance and move_arc, whenever adding the
left-wheel calibration offset would push the left wheel's magnitude past
1.0, the OFFSET ITSELF is reduced by the overflow so the left wheel is
commanded at exactly magnitude 1.0, and the right wheel keeps its base
command unchanged (it is NOT reduced by the overflow; the redistribution
branch in the source is unreachable). -/
theorem C5_offset_overflow (d1 d2 sp1 sp2 rm ad sp3 : ℚ)
    (hd1 : 0 < d1) (ho1 : 1 < clampSpeed sp1 + LEFT_MOTOR_OFFSET)
    (hd2 : d2 < 0) (ho2 : -clampSpeed sp2 - LEFT_MOTOR_OFFSET < -1)
    (ha : 0 < ad) (ho3 : 1 < (arc_base_motors rm ad sp3).1 + LEFT_MOTOR_OFFSET) :
    md_offset_to_apply d1 sp1 = 1 - clampSpeed sp1 ∧
    md_motors d1 sp1 = (1, clampSpeed sp1) ∧
    md_offset_to_apply d2 sp2 = -(1 - clampSpeed sp2) ∧
    md_motors d2 sp2 = (-1, -clampSpeed sp2) ∧
    arc_offset_to_apply rm ad sp3 = 1 - (arc_base_motors rm ad sp3).1 ∧
    arc_motors rm ad sp3 = (1, (arc_base_motors rm ad sp3).2) := by
  have hp1 : pysign d1 = 1 := by unfold pysign; rw [if_pos (le_of_lt hd1)]
  have hp2 : pysign d2 = -1 := by unfold pysign; rw [if_neg (not_le.2 hd2)]
  have hpa : pysign ad = 1 := by unfold pysign; rw [if_pos (le_of_lt ha)]
  have hoff1 : md_offset_to_apply d1 sp1 = 1 - clampSpeed sp1 := by
    unfold md_offset_to_apply
    rw [hp1, if_pos (by norm_num), if_pos ho1]
    ring
  have hoff2 : md_offset_to_apply d2 sp2 = -(1 - clampSpeed sp2) := by
    unfold md_offset_to_apply
    rw [hp2, if_neg (by norm_num), if_pos ho2, abs_of_neg (by linarith)]
    ring
  have hoff3 : arc_offset_to_apply rm ad sp3 = 1 - (arc_base_motors rm ad sp3).1 := by
    unfold arc_offset_to_apply
    rw [hpa, if_pos (by norm_num), if_pos ho3]
    ring
  refine ⟨hoff1, ?_, hoff2, ?_, hoff3, ?_⟩
  · rw [md_motors_eq, hoff1, hp1]
    simp only [Prod.mk.injEq]
    constructor <;> ring
  · rw [md_motors_eq, hoff2, hp2]
    simp only [Prod.mk.injEq]
    constructor <;> ring
  · rw [arc_motors_eq, hoff3]
    simp only [Prod.mk.injEq]
    constructor <;> ring

theorem C5_offset_overflow_witness :
    md_offset_to_apply 1 1 = 1 - clampSpeed 1 ∧
    md_motors 1 1 = (1, clampSpeed 1) ∧
    md_offset_to_apply (-1) 1 = -(1 - clampSpeed 1) ∧
    md_motors (-1) 1 = (-1, -clampSpeed 1) ∧
    arc_offset_to_apply (-1/4) 90 1 = 1 - (arc_base_motors (-1/4) 90 1).1 ∧
    arc_motors (-1/4) 90 1 = (1, (arc_base_motors (-1/4) 90 1).2) :=
  C5_offset_overflow 1 (-1) 1 1 (-1/4) 90 1
    (by norm_num) (of_decide_eq_true (by with_unfolding_all rfl))
    (by norm_num) (of_decide_eq_true (by with_unfolding_all rfl))
    (by norm_num) (of_decide_eq_true (by with_unfolding_all rfl))

/-- Claim C5 as stated is false: at move_distance(1.0, 1.0) the offset would
push the left wheel to 1.0085 > 1.0; the left wheel is clamped to 1.0 but
the right wheel is NOT reduced by the overflow (it stays at 1.0, not at
1.0 - overflow). -/
theorem C5_cex :
    1 < clampSpeed 1 + LEFT_MOTOR_OFFSET ∧
    (md_motors 1 1).1 = 1 ∧
    (md_motors 1 1).2 ≠ clampSpeed 1 - (clampSpeed 1 + LEFT_MOTOR_OFFSET - 1) :=
  of_decide_eq_true (by with_unfolding_all rfl)

/-- Claim C6 (amended): when the ultrasonic read raises during a safety
check the check is fail-open — it reports safe so motion continues and the
robot state is untouched apart from consuming the reading — but the
distance reported for that sample is None; no last-known-good distance is
reused. -/
theorem C6_fail_open (env : Env) (s : St) (h : env.read s.idx = none) :
    check_ultrasonic_safety env s = ((true, none), { s with idx := s.idx + 1 }) := by
  simp [check_ultrasonic_safety, read_distance, h]

theorem C6_fail_open_witness :
    envRaise1.read (St.init.idx + 1) = none ∧
    check_ultrasonic_safety envRaise1 { St.init with idx := St.init.idx + 1 } =
      ((true, none), { St.init with idx := St.init.idx + 1 + 1 }) :=
  ⟨by with_unfolding_all rfl,
    C6_fail_open envRaise1 { St.init with idx := St.init.idx + 1 } (by with_unfolding_all rfl)⟩

/-- Claim C6 as stated is false: with a good reading of 0.2 m followed by a
raising read, the second check reports distance none, not the last-known-
good 0.2 m — nothing is reused. -/
theorem C6_cex :
    (check_ultrasonic_safety envRaise1
      (check_ultrasonic_safety envRaise1 St.init).2).1 = (true, none) ∧
    (check_ultrasonic_safety envRaise1 St.init).1 = (true, some (1/5)) ∧
    (none : Option ℚ) ≠ some (1/5) :=
  of_decide_eq_true (by with_unfolding_all rfl)

/-- Claim C8 (amended): for forward move_distance and move_arc, every sleep
taken in the constant-speed phase (between two consecutive safety checks)
is at most check_interval = 0.05 s; in the acceleration and deceleration
ramps, however, the interlock is sampled only once per ramp step, whose
sleep is phase_time / ACCEL_DECEL_STEPS and can exceed 50 ms (see the
counterexample), so the 50 ms cadence holds only in the constant phase. -/
theorem C8_const_phase_cadence (env1 env2 : Env) (d sp1 rm ad sp2 rad : ℚ)
    (hd : 0 < d) (ha : 0 < ad) :
    constSleepsOK (move_distance env1 d sp1 St.init).2 = true ∧
    constSleepsOK (move_arc env2 rm ad sp2 rad St.init).2 = true := by
  constructor
  · rcases hh : move_distance env1 d sp1 St.init with ⟨r, s'⟩
    obtain ⟨_, _, hS⟩ := move_distance_spec env1 d sp1 St.init r s' hh
    exact constSleepsOK_of_ext (hS hd)
  · rcases hh : move_arc env2 rm ad sp2 rad St.init with ⟨r, s'⟩
    obtain ⟨_, _, hS⟩ := move_arc_spec env2 rm ad sp2 rad St.init r s' hh
    exact constSleepsOK_of_ext (hS ha)

theorem C8_const_phase_cadence_witness :
    constSleepsOK (move_distance envSafe (1/100) (1/2) St.init).2 = true ∧
    constSleepsOK (move_arc envSafe (1/4) 90 (1/2) (157/100) St.init).2 = true :=
  C8_const_phase_cadence envSafe envSafe (1/100) (1/2) (1/4) 90 (1/2) (157/100)
    (by norm_num) (by norm_num)

/-- Claim C8 as stated is false: in move_distance(0.2, 0.3) the acceleration
ramp sleeps about 0.18 s between consecutive interlock checks, far above
the claimed 50 ms bound. -/
theorem C8_cex :
    ((move_distance envSafe (1/5) (3/10) St.init).2.sleeps.any
      (fun p => decide (p.1 = Phase.accel) && decide (check_interval < p.2))) = true := by
  with_unfolding_all rfl

theorem abs_mul_pm {x q : ℚ} (hx : 0 ≤ x) (hq : |q| = 1) : |x * q| = x := by
  rw [abs_mul, hq, mul_one, abs_of_nonneg hx]

theorem arc_offset_abs (rm ad sp : ℚ) :
    0 ≤ arc_offset_to_apply rm ad sp ∧ |arc_offset_to_apply rm ad sp| ≤ LEFT_MOTOR_OFFSET := by
  have hb := (arc_base_abs rm ad sp).1
  have hb' := abs_le.1 hb
  have hval : (arc_offset_to_apply rm ad sp = LEFT_MOTOR_OFFSET -
      ((arc_base_motors rm ad sp).1 + LEFT_MOTOR_OFFSET - 1) ∧
        1 < (arc_base_motors rm ad sp).1 + LEFT_MOTOR_OFFSET) ∨
      arc_offset_to_apply rm ad sp = LEFT_MOTOR_OFFSET ∨
      arc_offset_to_apply rm ad sp = 0 := by
    simp only [arc_offset_to_apply]
    split_ifs with h1 h2
    · exact Or.inl ⟨rfl, h2⟩
    · exact Or.inr (Or.inl rfl)
    · exact Or.inr (Or.inr rfl)
  rcases hval with ⟨he, hcond⟩ | he | he <;> rw [he]
  · constructor
    · simp only [LEFT_MOTOR_OFFSET] at *
      linarith [hb'.2]
    · rw [abs_of_nonneg (by simp only [LEFT_MOTOR_OFFSET] at *; linarith [hb'.2])]
      simp only [LEFT_MOTOR_OFFSET] at *
      linarith
  · constructor
    · norm_num [LEFT_MOTOR_OFFSET]
    · rw [abs_of_nonneg (by norm_num [LEFT_MOTOR_OFFSET])]
  · refine ⟨le_rfl, ?_⟩
    rw [abs_zero]
    norm_num [LEFT_MOTOR_OFFSET]

/-- Claim C4 (amended): for every valid move_arc call, if radius_m < 0 the
commanded right-wheel magnitude is at most the left's; if radius_m > 0 the
BASE (pre-offset) left magnitude is at most the base right magnitude, and
the final left command can exceed the right by at most the left-wheel
calibration offset (so the original unqualified left ≤ right fails, see the
counterexample); the applied inner/outer wheel speed ratio equals
(|radius| - track/2) / (|radius| + track/2) floored at
MIN_MOTOR_VALUE / clamped speed. -/
theorem C4_arc_kinematics (rm1 rm2 rm3 ad1 ad2 sp1 sp2 sp3 : ℚ)
    (hneg : rm1 < 0) (hpos : 0 < rm2) :
    |(arc_motors rm1 ad1 sp1).2| ≤ |(arc_motors rm1 ad1 sp1).1| ∧
    |(arc_base_motors rm2 ad2 sp2).1| ≤ |(arc_base_motors rm2 ad2 sp2).2| ∧
    |(arc_motors rm2 ad2 sp2).1| ≤ |(arc_base_motors rm2 ad2 sp2).2| + LEFT_MOTOR_OFFSET ∧
    arc_speed_scale rm3 sp3 = max (MIN_MOTOR_VALUE / clampSpeed sp3)
      ((|rm3| - WHEELBASE_M / 2) / (|rm3| + WHEELBASE_M / 2)) := by
  have key : |(arc_base_motors rm2 ad2 sp2).1| ≤ |(arc_base_motors rm2 ad2 sp2).2| := by
    have hm := clampSpeed_pos sp2
    have hmu := clampSpeed_ub_num sp2
    have hsp := arc_speed_scale_pos rm2 sp2
    have hsu := arc_speed_scale_le_one rm2 sp2
    rw [arc_base_pos_radius ad2 sp2 hpos]
    simp only
    rw [abs_mul_pm (by positivity) (abs_pysign ad2),
      abs_mul_pm (le_of_lt hm) (abs_pysign ad2)]
    nlinarith
  refine ⟨?_, key, ?_, arc_speed_scale_formula rm3 sp3⟩
  · have hm := clampSpeed_pos sp1
    have hmu := clampSpeed_ub_num sp1
    have hsp := arc_speed_scale_pos rm1 sp1
    have hsu := arc_speed_scale_le_one rm1 sp1
    have hoff0 := (arc_offset_abs rm1 ad1 sp1).1
    have hbase := arc_base_nonpos_radius ad1 sp1 (not_lt.2 (le_of_lt hneg))
    rw [arc_motors_eq, hbase]
    simp only
    rcases pysign_cases ad1 with h | h <;> rw [h]
    · rw [mul_one, mul_one,
        abs_of_pos (by positivity),
        abs_of_pos (by nlinarith)]
      nlinarith
    · have hz : arc_offset_to_apply rm1 ad1 sp1 = 0 := by
        unfold arc_offset_to_apply
        rw [h, if_neg (by norm_num)]
      rw [hz, add_zero,
        abs_mul_pm (by positivity) (by norm_num),
        abs_mul_pm (le_of_lt hm) (by norm_num)]
      nlinarith
  · rw [arc_motors_eq]
    calc |(arc_base_motors rm2 ad2 sp2).1 + arc_offset_to_apply rm2 ad2 sp2| ≤
        |(arc_base_motors rm2 ad2 sp2).1| + |arc_offset_to_apply rm2 ad2 sp2| := abs_add _ _
      _ ≤ |(arc_base_motors rm2 ad2 sp2).2| + LEFT_MOTOR_OFFSET := by
        have := (arc_offset_abs rm2 ad2 sp2).2
        linarith [key]

theorem C4_arc_kinematics_witness :
    |(arc_motors (-1) 90 (2/5)).2| ≤ |(arc_motors (-1) 90 (2/5)).1| ∧
    |(arc_base_motors 1 90 (1/2)).1| ≤ |(arc_base_motors 1 90 (1/2)).2| ∧
    |(arc_motors 1 90 (1/2)).1| ≤ |(arc_base_motors 1 90 (1/2)).2| + LEFT_MOTOR_OFFSET ∧
    arc_speed_scale (1/2) (1/2) = max (MIN_MOTOR_VALUE / clampSpeed (1/2))
      ((|(1 : ℚ)/2| - WHEELBASE_M / 2) / (|(1 : ℚ)/2| + WHEELBASE_M / 2)) :=
  C4_arc_kinematics (-1) 1 (1/2) 90 90 (2/5) (1/2) (1/2) (by norm_num) (by norm_num)

/-- Claim C4 as stated is false: move_arc with radius 1 m, angle 90 and
speed 0.3 commands left magnitude 0.3085 strictly greater than the right's
0.3 (the ratio floor makes both wheels equal and the calibration offset
then raises the left one). -/
theorem C4_cex :
    (0 : ℚ) < 1 ∧ (0 : ℚ) < 90 ∧
    |(arc_motors 1 90 (3/10)).2| < |(arc_motors 1 90 (3/10)).1| :=
  of_decide_eq_true (by with_unfolding_all rfl)

/-- Claim C9: rotate_until_object_center sweeps in fixed 15-degree
increments for at most num_increments = 48 increments (two full
revolutions); if after increment m+1 the cached detection frame first
contains a box whose class is among the target items and whose horizontal
box center lies within center_threshold of the image's horizontal center,
it returns status found with angle_degrees_found = (m+1) x 15 (90 degrees
when first matched at increment 6, as in the witness); if no increment
matches, it returns status not_found with the 720 degrees swept. -/
theorem C9_rotate_search (ve1 ve2 : VisionEnv) (items1 items2 : List String)
    (th1 th2 : ℚ) (m : ℕ) (det : Detection)
    (hne1 : items1 ≠ []) (hc1 : (ve1.frames 0).isNone = false)
    (hm : m + 1 ≤ num_increments)
    (hmiss : ∀ j, j < m → frame_hit ve1 items1 th1 (j + 1) = none)
    (hhit : frame_hit ve1 items1 th1 (m + 1) = some det)
    (hne2 : items2 ≠ []) (hc2 : (ve2.frames 0).isNone = false)
    (hmiss2 : ∀ j, j < num_increments → frame_hit ve2 items2 th2 (j + 1) = none) :
    rotate_until_object_center ve1 items1 th1 =
      some ⟨.found, ((m : ℚ) + 1) * increment_degrees, some det.class_name,
        some (center_dist det)⟩ ∧
    rotate_until_object_center ve2 items2 th2 =
      some ⟨.not_found, 720, none, none⟩ := by
  constructor
  · rw [rotate_until_object_center, if_neg hne1, if_neg (by simp [hc1])]
    rw [sweep_found ve1 items1 th1 num_increments m 0 0 det (Nat.lt_of_succ_le hm)
      (fun j hj => by rw [show 0 + 1 + j = j + 1 by omega]; exact hmiss j hj)
      (by rw [show 0 + 1 + m = m + 1 by omega]; exact hhit)]
    norm_num
  · rw [rotate_until_object_center, if_neg hne2, if_neg (by simp [hc2])]
    rw [sweep_not_found ve2 items2 th2 num_increments 0 0
      (fun j hj => by rw [show 0 + 1 + j = j + 1 by omega]; exact hmiss2 j hj)]
    norm_num [num_increments, increment_degrees]

theorem C9_rotate_search_witness :
    rotate_until_object_center veBottle6 [bottle] 200 =
      some ⟨.found, ((5 : ℕ) + 1 : ℚ) * increment_degrees,
        some (Detection.mk bottle (Box.mk 700 900)).class_name,
        some (center_dist (Detection.mk bottle (Box.mk 700 900)))⟩ ∧
    rotate_until_object_center veMiss [cup] 200 =
      some ⟨.not_found, 720, none, none⟩ :=
  C9_rotate_search veBottle6 veMiss [bottle] [cup] 200 200 5 (Detection.mk bottle (Box.mk 700 900))
    (by simp) (by with_unfolding_all rfl) (by norm_num [num_increments])
    (of_decide_eq_true (by with_unfolding_all rfl))
    (by with_unfolding_all rfl)
    (by simp) (by with_unfolding_all rfl)
    (of_decide_eq_true (by with_unfolding_all rfl))

/-- Claim C10: move_distance, rotate and move_arc clamp the commanded motor
magnitude to max(MIN_MOTOR_VALUE, min(robot speed magnitude,
MAX_MOTOR_VALUE)), a value in [0.3, 1.0]; robot_speed 0 is not rejected but
silently raised to 0.3 (the concrete run completes), and a negative
robot_speed does not reverse motion: the motor profiles are identical under
speed negation, and direction comes solely from the sign of distance_m or
angle_degrees. -/
theorem C10_speed_clamp (sp d rm ad : ℚ) :
    clampSpeed sp = max MIN_MOTOR_VALUE (min |sp| MAX_MOTOR_VALUE) ∧
    MIN_MOTOR_VALUE ≤ clampSpeed sp ∧ clampSpeed sp ≤ MAX_MOTOR_VALUE ∧
    clampSpeed 0 = MIN_MOTOR_VALUE ∧
    clampSpeed (-sp) = clampSpeed sp ∧
    md_motors d (-sp) = md_motors d sp ∧
    md_phase_times d (-sp) = md_phase_times d sp ∧
    rotate_motors ad (-sp) = rotate_motors ad sp ∧
    arc_motors rm ad (-sp) = arc_motors rm ad sp ∧
    (md_motors d sp).2 = clampSpeed sp * pysign d ∧
    pysign d = (if 0 ≤ d then 1 else -1) ∧
    (move_distance envSafe (1/100) 0 St.init).1.map MoveRes.status =
      some MStatus.completed := by
  refine ⟨rfl, clampSpeed_lb sp, clampSpeed_ub sp, ?_, clampSpeed_neg sp,
    ?_, ?_, ?_, ?_, ?_, rfl, ?_⟩
  · norm_num [clampSpeed, MIN_MOTOR_VALUE, MAX_MOTOR_VALUE]
  · simp only [md_motors, md_offset_to_apply, clampSpeed_neg]
  · simp only [md_phase_times, md_duration, clampSpeed_neg]
  · simp only [rotate_motors, clampSpeed_neg]
  · simp only [arc_motors, arc_base_motors, arc_offset_to_apply, arc_speed_scale,
      clampSpeed_neg]
  · rw [md_motors_eq]
  · with_unfolding_all rfl
